import Mathlib

/-!
# slsa-verifier: the BYOB (delegated SLSA v1.0) provenance adapter

A shallow embedding of `verifiers/internal/gha/slsaprovenance/v1.0/byob.go`
and of the parts of the provenance contract that
`verifiers/internal/gha/provenance_test.go` exercises. The policy verifiers
that the tests call (`verifyDigest`, `verifySourceURI`,
`verifyBuilderIDExactMatch`, `VerifyVersionedTag`, `VerifyWorkflowInputs`) are
not among the sources;
they are modelled from the specification and checked against the test tables.

Conventions of the embedding

* A Go `string` is a Lean `String`.
* A Go `map[string]T` is an association list `List (String × T)`; reading
  `m[key]` is `List.lookup key m` (the first binding of the key).
* A Go `(T, error)` result is `Except GoError T`.
* A Go `error` built with `fmt.Errorf("%w: ...", sentinel)` is represented by
  the sentinel it wraps, which is what `errors.Is` observes; the message text
  is not modelled. An error formatted with `%v` is not wrapped, so it does not
  contribute its sentinel.
-/

namespace SlsaVerifier

/-! ## Errors -/

/-- The sentinel errors of the `errors` package that the sources refer to. -/
inductive GoError where
  | ErrorInvalidDssePayload
  | ErrorMalformedURI
  | ErrorInvalidFormat
  | ErrorMismatchHash
  | ErrorMismatchSource
  | ErrorMismatchBuilderID
  | ErrorMismatchBranch
  | ErrorMismatchTag
  | ErrorMismatchVersionedTag
  | ErrorInvalidSemver
  | ErrorMismatchWorkflowInputs
  deriving DecidableEq, Repr

deriving instance DecidableEq for Except

/-! ## Untyped values -/

/-- A value of Go type `interface{}`, by dynamic type. The first six
constructors are the dynamic types `encoding/json` produces; `mapStr` is the
dynamic type `map[string]string`, which a type assertion can ask for. -/
inductive GoValue where
  | null
  | bool (b : Bool)
  | number (q : Rat)
  | str (s : String)
  | slice (xs : List GoValue)
  | mapAny (m : List (String × GoValue))
  | mapStr (m : List (String × String))

namespace GoValue

/-- The type assertion `v.(map[string]interface{})`. -/
def asMapAny : GoValue → Option (List (String × GoValue))
  | mapAny m => some m
  | _ => none

/-- The type assertion `v.(map[string]string)`. -/
def asMapStr : GoValue → Option (List (String × String))
  | mapStr m => some m
  | _ => none

/-- The type assertion `v.(string)`. -/
def asString : GoValue → Option String
  | str s => some s
  | _ => none

end GoValue

/-! ## The attestation -/

/-- An in-toto subject: a name and a digest set (`map[string]string`). -/
structure Subject where
  Name : String
  Digest : List (String × String)
  deriving DecidableEq, Repr

/-- An entry of `resolvedDependencies` (in-toto `ResourceDescriptor`). -/
structure ResourceDescriptor where
  Name : String
  URI : String
  Digest : List (String × String)
  deriving DecidableEq, Repr

/-- The SLSA v1.0 `buildDefinition`. -/
structure BuildDefinition where
  BuildType : String
  ExternalParameters : GoValue
  InternalParameters : GoValue
  ResolvedDependencies : List ResourceDescriptor

/-- The SLSA v1.0 `runDetails.builder`. -/
structure Builder where
  ID : String
  deriving DecidableEq, Repr

/-- The SLSA v1.0 `runDetails.metadata`; a `*time.Time` is an optional
instant. -/
structure BuildMetadata where
  InvocationID : String
  StartedOn : Option Int
  FinishedOn : Option Int
  deriving DecidableEq, Repr

/-- The SLSA v1.0 `runDetails`. -/
structure RunDetails where
  Builder : Builder
  BuildMetadata : BuildMetadata
  deriving DecidableEq, Repr

/-- The SLSA v1.0 provenance predicate. -/
structure ProvenancePredicate where
  BuildDefinition : BuildDefinition
  RunDetails : RunDetails

/-- The decoded statement: subject list and predicate. -/
structure intotoAttestation where
  Subject : List Subject
  Predicate : ProvenancePredicate

/-- `BYOBProvenanceV1`: SLSA v1.0 provenance for the BYOB build type. -/
structure BYOBProvenanceV1 where
  prov : intotoAttestation

/-! ## Library functions used by the adapter -/

/-- `strings.Split(s, sep)` for a one-character separator, on characters:
the maximal pieces of `s` between occurrences of `sep`, in order. -/
def splitChars (sep : Char) : List Char → List (List Char)
  | [] => [[]]
  | c :: cs =>
    if c = sep then [] :: splitChars sep cs
    else
      match splitChars sep cs with
      | [] => [[c]]
      | p :: ps => (c :: p) :: ps

/-- `strings.Split(s, sep)` for a one-character separator. -/
def stringsSplit (s : String) (sep : Char) : List String :=
  (splitChars sep s.data).map String.mk

/-- `strings.HasPrefix(s, pre)`. -/
def stringsHasPrefix (s pre : String) : Bool :=
  pre.data.isPrefixOf s.data

/-! ## byob.go -/

/-- `getValidateKey`: the entry must be present, a string, and non-empty. -/
def getValidateKey (m : List (String × GoValue)) (key : String) : Except GoError String :=
  match m.lookup key with
  | none => .error .ErrorInvalidFormat
  | some v =>
    match v.asString with
    | none => .error .ErrorInvalidFormat
    | some vv =>
      if vv = "" then .error .ErrorInvalidFormat
      else .ok vv

namespace BYOBProvenanceV1

/-- `BuilderID`. -/
def BuilderID (p : BYOBProvenanceV1) : Except GoError String :=
  .ok p.prov.Predicate.RunDetails.Builder.ID

/-- `SourceURI`: the URI of the first resolved dependency. -/
def SourceURI (p : BYOBProvenanceV1) : Except GoError String :=
  match p.prov.Predicate.BuildDefinition.ResolvedDependencies with
  | [] => .error .ErrorInvalidDssePayload
  | d :: _ =>
    if d.URI = "" then .error .ErrorMalformedURI
    else .ok d.URI

/-- `triggerInfo`: repository, ref and path of the `workflow` external
parameter, in that order. -/
def triggerInfo (p : BYOBProvenanceV1) : Except GoError (String × String × String) :=
  match p.prov.Predicate.BuildDefinition.ExternalParameters.asMapAny with
  | none => .error .ErrorInvalidDssePayload
  | some extParams =>
    match extParams.lookup "workflow" with
    | none => .error .ErrorInvalidDssePayload
    | some workflow =>
      match workflow.asMapAny with
      | none => .error .ErrorInvalidDssePayload
      | some workflowMap =>
        match getValidateKey workflowMap "ref" with
        | .error _ => .error .ErrorMalformedURI
        | .ok ref =>
          match getValidateKey workflowMap "repository" with
          | .error _ => .error .ErrorMalformedURI
          | .ok repository =>
            match getValidateKey workflowMap "path" with
            | .error err => .error err
            | .ok path => .ok (repository, ref, path)

/-- `TriggerURI`: `repository@ref`. -/
def TriggerURI (p : BYOBProvenanceV1) : Except GoError String :=
  match p.triggerInfo with
  | .error err => .error err
  | .ok (repository, ref, _) =>
    if repository = "" ∨ ref = "" then .error .ErrorMalformedURI
    else .ok (repository ++ "@" ++ ref)

/-- `Subjects`. -/
def Subjects (p : BYOBProvenanceV1) : Except GoError (List Subject) :=
  if p.prov.Subject.length = 0 then .error .ErrorInvalidDssePayload
  else .ok p.prov.Subject

/-- `GetBranch`: the second `@`-separated part of the source URI when it
starts with `refs/heads`. -/
def GetBranch (p : BYOBProvenanceV1) : Except GoError String :=
  match p.SourceURI with
  | .error err => .error err
  | .ok sourceURI =>
    match stringsSplit sourceURI '@' with
    | _ :: part1 :: _ =>
      if stringsHasPrefix part1 "refs/heads" then .ok part1 else .ok ""
    | _ => .ok ""

/-- `GetTag`: the second `@`-separated part of the source URI when it starts
with `refs/tags`. -/
def GetTag (p : BYOBProvenanceV1) : Except GoError String :=
  match p.SourceURI with
  | .error err => .error err
  | .ok sourceURI =>
    match stringsSplit sourceURI '@' with
    | _ :: part1 :: _ =>
      if stringsHasPrefix part1 "refs/tags" then .ok part1 else .ok ""
    | _ => .ok ""

/-- `GetWorkflowInputs`; `common.GetWorkflowInputs` (applied to the SLSA v1
predicate type) is the parameter `commonGetWorkflowInputs`. -/
def GetWorkflowInputs
    (commonGetWorkflowInputs : List (String × GoValue) → Except GoError (List (String × GoValue)))
    (p : BYOBProvenanceV1) : Except GoError (List (String × GoValue)) :=
  match p.prov.Predicate.BuildDefinition.InternalParameters.asMapAny with
  | none => .error .ErrorInvalidDssePayload
  | some sysParams => commonGetWorkflowInputs sysParams

/-- `GetBuildTriggerPath`. -/
def GetBuildTriggerPath (p : BYOBProvenanceV1) : Except GoError String :=
  match p.prov.Predicate.BuildDefinition.ExternalParameters.asMapAny with
  | none => .error .ErrorInvalidDssePayload
  | some sysParams =>
    match sysParams.lookup "workflow" with
    | none => .error .ErrorInvalidDssePayload
    | some w =>
      match w.asMapStr with
      | none => .error .ErrorInvalidDssePayload
      | some wMap =>
        match wMap.lookup "path" with
        | none => .error .ErrorInvalidDssePayload
        | some v => .ok v

/-- `GetBuildInvocationID`. -/
def GetBuildInvocationID (p : BYOBProvenanceV1) : Except GoError String :=
  .ok p.prov.Predicate.RunDetails.BuildMetadata.InvocationID

/-- `GetBuildStartTime`. -/
def GetBuildStartTime (p : BYOBProvenanceV1) : Except GoError (Option Int) :=
  .ok p.prov.Predicate.RunDetails.BuildMetadata.StartedOn

/-- `GetBuildFinishTime`. -/
def GetBuildFinishTime (p : BYOBProvenanceV1) : Except GoError (Option Int) :=
  .ok p.prov.Predicate.RunDetails.BuildMetadata.FinishedOn

/-- `GetNumberResolvedDependencies`. -/
def GetNumberResolvedDependencies (p : BYOBProvenanceV1) : Except GoError Int :=
  .ok (Int.ofNat p.prov.Predicate.BuildDefinition.ResolvedDependencies.length)

/-- `GetSystemParameters`. -/
def GetSystemParameters (p : BYOBProvenanceV1) : Except GoError (List (String × GoValue)) :=
  match p.prov.Predicate.BuildDefinition.InternalParameters.asMapAny with
  | none => .error .ErrorInvalidDssePayload
  | some sysParams => .ok sysParams

end BYOBProvenanceV1

/-- The last three steps of `triggerInfo`, from the workflow map on: the reads
of `ref`, `repository` and `path`. -/
def triggerInfoOfWorkflow (workflowMap : List (String × GoValue)) :
    Except GoError (String × String × String) :=
  match getValidateKey workflowMap "ref" with
  | .error _ => .error .ErrorMalformedURI
  | .ok ref =>
    match getValidateKey workflowMap "repository" with
    | .error _ => .error .ErrorMalformedURI
    | .ok repository =>
      match getValidateKey workflowMap "path" with
      | .error err => .error err
      | .ok path => .ok (repository, ref, path)

/-! ## The provenance contract and the digest verifier -/

/-- The provenance contract (`iface.Provenance`) as the record of what each
accessor returns, as `testProvenance` of provenance_test.go implements it. -/
structure Provenance where
  BuilderID : Except GoError String
  SourceURI : Except GoError String
  TriggerURI : Except GoError String
  Subjects : Except GoError (List Subject)
  GetBranch : Except GoError String
  GetTag : Except GoError String
  GetBuildTriggerPath : Except GoError String
  GetSystemParameters : Except GoError (List (String × GoValue))
  GetBuildInvocationID : Except GoError String
  GetBuildStartTime : Except GoError (Option Int)
  GetBuildFinishTime : Except GoError (Option Int)
  GetNumberResolvedDependencies : Except GoError Int
  GetWorkflowInputs : Except GoError (List (String × GoValue))

/-- A BYOB provenance seen through the provenance contract. -/
def BYOBProvenanceV1.toProvenance
    (commonGetWorkflowInputs : List (String × GoValue) → Except GoError (List (String × GoValue)))
    (p : BYOBProvenanceV1) : Provenance :=
  { BuilderID := p.BuilderID
    SourceURI := p.SourceURI
    TriggerURI := p.TriggerURI
    Subjects := p.Subjects
    GetBranch := p.GetBranch
    GetTag := p.GetTag
    GetBuildTriggerPath := p.GetBuildTriggerPath
    GetSystemParameters := p.GetSystemParameters
    GetBuildInvocationID := p.GetBuildInvocationID
    GetBuildStartTime := p.GetBuildStartTime
    GetBuildFinishTime := p.GetBuildFinishTime
    GetNumberResolvedDependencies := p.GetNumberResolvedDependencies
    GetWorkflowInputs := p.GetWorkflowInputs commonGetWorkflowInputs }

/-- The `sha256` entry of a subject's digest set, if it has one. -/
def Subject.sha256 (s : Subject) : Option String :=
  s.Digest.lookup "sha256"

/-- Modelled from the spec: the scan of `verifyDigest` (provenance.go is not
among the sources). Each subject's digest set is read under `sha256`; the scan
succeeds the instant a subject's `sha256` digest equals the expected one. At
the end of the list it fails with `MismatchHash` when some subject carried a
`sha256` digest (`seen`), and with `InvalidDssePayload` when none did, which
covers the empty list. -/
def verifyDigestScan (expectedHash : String) : List Subject → Bool → Except GoError Unit
  | [], seen => if seen then .error .ErrorMismatchHash else .error .ErrorInvalidDssePayload
  | s :: rest, seen =>
    match s.sha256 with
    | none => verifyDigestScan expectedHash rest seen
    | some hash =>
      if hash = expectedHash then .ok ()
      else verifyDigestScan expectedHash rest true

/-- Modelled from the spec: `verifyDigest(provenance, expectedHexDigest)`
(provenance.go is not among the sources). It reads `Subjects`, returns that
accessor's error when it fails, and otherwise scans the subjects. -/
def verifyDigest (prov : Provenance) (expectedHash : String) : Except GoError Unit :=
  match prov.Subjects with
  | .error err => .error err
  | .ok subjects => verifyDigestScan expectedHash subjects false

/-! ## The URI shape of the specification -/

/-- What follows the first `://` of a string, if it has one. -/
def afterScheme : List Char → Option (List Char)
  | [] => none
  | c :: cs =>
    if (':' :: '/' :: '/' :: []).isPrefixOf (c :: cs) then some (cs.drop 2)
    else afterScheme cs

/-- The string without its optional scheme: what follows the first `://`, or
the whole string when it has none. -/
def dropScheme (cs : List Char) : List Char :=
  match afterScheme cs with
  | some rest => rest
  | none => cs

/-- What precedes the first `@` of a string: the string without its optional
`@ref` suffix. -/
def dropRef (cs : List Char) : List Char :=
  cs.takeWhile (fun c => c != '@')

/-- The shape `[scheme]host/org/repo[@ref]` in the words of the
specification: once the optional scheme and the optional `@ref` suffix are
removed, what remains splits on `/` into exactly three non-empty components.
-/
def hasRepoShape (u : String) : Bool :=
  let parts := splitChars '/' (dropScheme (dropRef u.data))
  parts.length == 3 && parts.all (fun part => !part.isEmpty)

/-! ## The test double of the provenance contract -/

/-- The `testProvenance` of provenance_test.go: every accessor returns the
field of its name and no error. -/
structure testProvenance where
  builderID : String := ""
  sourceURI : String := ""
  triggerURI : String := ""
  subjects : List Subject := []
  branch : String := ""
  tag : String := ""
  buildTriggerPath : String := ""
  systemParameters : List (String × GoValue) := []
  buildInvocationID : String := ""
  buildStartTime : Option Int := none
  buildFinishTime : Option Int := none
  noResolvedDeps : Int := 0
  workflowInputs : List (String × GoValue) := []

/-- A `testProvenance` seen through the provenance contract. -/
def testProvenance.toProvenance (p : testProvenance) : Provenance :=
  { BuilderID := .ok p.builderID
    SourceURI := .ok p.sourceURI
    TriggerURI := .ok p.triggerURI
    Subjects := .ok p.subjects
    GetBranch := .ok p.branch
    GetTag := .ok p.tag
    GetBuildTriggerPath := .ok p.buildTriggerPath
    GetSystemParameters := .ok p.systemParameters
    GetBuildInvocationID := .ok p.buildInvocationID
    GetBuildStartTime := .ok p.buildStartTime
    GetBuildFinishTime := .ok p.buildFinishTime
    GetNumberResolvedDependencies := .ok p.noResolvedDeps
    GetWorkflowInputs := .ok p.workflowInputs }

/-! ## Source URI verification -/

/-- A string without its optional `git+` prefix. -/
def stripGitPlus (cs : List Char) : List Char :=
  if ('g' :: 'i' :: 't' :: '+' :: []).isPrefixOf cs then cs.drop 4 else cs

/-- The two parts of a string around its first `sep`: what precedes it, and
what follows it when there is one. -/
def splitFirst (sep : Char) (cs : List Char) : List Char × Option (List Char) :=
  (cs.takeWhile (fun c => c != sep),
    match cs.dropWhile (fun c => c != sep) with
    | [] => none
    | _ :: rest => some rest)

/-- A normalized git URI: host, org, repo and the optional ref. -/
structure GitURI where
  host : String
  org : String
  repo : String
  ref : Option String
  deriving DecidableEq, Repr

/-- Whether the URI carries a non-empty ref suffix. -/
def GitURI.hasRef (u : GitURI) : Bool :=
  match u.ref with
  | none => false
  | some r => r != ""

/-- Modelled from the spec: the normalization of a URI in `verifySourceURI`
(provenance.go and its URI utilities are not among the sources). The optional
`git+` prefix and the URI scheme are stripped, the optional `@ref` suffix is
split off at the first `@`, and what remains must split on `/` into exactly a
non-empty host, org and repo. An empty or whitespace-only string has no three
components and does not parse. -/
def parseGitURI (uri : String) : Option GitURI :=
  let parts := splitFirst '@' (dropScheme (stripGitPlus uri.data))
  match splitChars '/' parts.1 with
  | [host, org, repo] =>
    if host.isEmpty || org.isEmpty || repo.isEmpty then none
    else some { host := String.mk host, org := String.mk org, repo := String.mk repo,
                ref := parts.2.map String.mk }
  | _ => none

/-- Modelled from the spec: `verifySourceURI(provenance, expectedSourceURI,
allowNoMaterialRef)` (provenance.go is not among the sources), with the steps
of the specification in their order: the expected URI must be
`github.com/org/repo` without ref; the source URI must parse and carry a ref
unless `allowNoMaterialRef`; the trigger URI must be readable, parse and carry
a ref; two refs must be equal; org and repo must equal those of the expected
URI. The specification states the last step for the source URI; the cases
`mismatch materials configSource org` and `mismatch materials configSource
name` of `Test_verifySourceURI` require it of the trigger URI too. An error of
the `SourceURI` accessor is returned as it is. The case `empty materials` of
that test expects `InvalidDssePayload` for an empty source URI, where the
specification says `MalformedURI`; the model follows the specification. -/
def verifySourceURI (prov : Provenance) (expectedSourceURI : String)
    (allowNoMaterialRef : Bool) : Except GoError Unit :=
  match parseGitURI expectedSourceURI with
  | none => .error .ErrorMalformedURI
  | some expected =>
    if expected.ref.isSome || expected.host != "github.com" then .error .ErrorMalformedURI
    else
      match prov.SourceURI with
      | .error err => .error err
      | .ok fullSourceURI =>
        match parseGitURI fullSourceURI with
        | none => .error .ErrorMalformedURI
        | some source =>
          if !source.hasRef && !allowNoMaterialRef then .error .ErrorMalformedURI
          else
            match prov.TriggerURI with
            | .error _ => .error .ErrorInvalidDssePayload
            | .ok fullTriggerURI =>
              match parseGitURI fullTriggerURI with
              | none => .error .ErrorMalformedURI
              | some trigger =>
                if !trigger.hasRef then .error .ErrorMalformedURI
                else if source.hasRef && source.ref != trigger.ref then
                  .error .ErrorInvalidDssePayload
                else if source.org != expected.org || source.repo != expected.repo
                    || trigger.org != expected.org || trigger.repo != expected.repo then
                  .error .ErrorMismatchSource
                else .ok ()

/-! ## Builder verification -/

/-- Modelled from the spec: `verifyBuilderIDExactMatch(provenance,
expectedBuilderID)` (provenance.go is not among the sources): pure string
equality of the attested and the expected builder ID; empty on either side, or
unequal, is `MismatchBuilderID`. An error of the `BuilderID` accessor is
returned as it is. -/
def verifyBuilderIDExactMatch (prov : Provenance) (expectedBuilderID : String) :
    Except GoError Unit :=
  match prov.BuilderID with
  | .error err => .error err
  | .ok id =>
    if id = "" ∨ expectedBuilderID = "" ∨ id ≠ expectedBuilderID then
      .error .ErrorMismatchBuilderID
    else .ok ()

/-! ## Versioned tag verification -/

/-- A tag read as a version: the digits of the numeric components, the
prerelease identifier and the build metadata, as they stand in the tag. -/
structure Version where
  major : List Char
  minor : Option (List Char)
  patch : Option (List Char)
  prerelease : Option (List Char)
  build : Option (List Char)
  deriving DecidableEq, Repr

/-- The number a string of decimal digits denotes. -/
def digitsValue (cs : List Char) : Nat :=
  cs.foldl (fun n c => 10 * n + (c.toNat - '0'.toNat)) 0

/-- Modelled from the spec: what may follow the patch component of a tag: an
optional `-<prerelease>`, then an optional `+<build>`, each non-empty; the
prerelease identifier ends at the first `+`. -/
def parseVersionSuffix : List Char → Option (Option (List Char) × Option (List Char))
  | [] => some (none, none)
  | c :: rest =>
    if c = '-' then
      let parts := splitFirst '+' rest
      if parts.1.isEmpty then none
      else
        match parts.2 with
        | none => some (some parts.1, none)
        | some b => if b.isEmpty then none else some (some parts.1, some b)
    else if c = '+' then
      if rest.isEmpty then none else some (none, some rest)
    else none

/-- Modelled from the spec: the reading of a tag from its patch component on,
after `v<major>.<minor>.`. -/
def parseVersionPatch (major minor : List Char) (cs : List Char) : Option Version :=
  let patch := cs.takeWhile Char.isDigit
  if patch.isEmpty then none
  else
    match parseVersionSuffix (cs.dropWhile Char.isDigit) with
    | none => none
    | some (pre, build) =>
      some { major := major, minor := some minor, patch := some patch,
             prerelease := pre, build := build }

/-- Modelled from the spec: the reading of a tag from its minor component on,
after `v<major>.`. -/
def parseVersionMinor (major : List Char) (cs : List Char) : Option Version :=
  let minor := cs.takeWhile Char.isDigit
  if minor.isEmpty then none
  else
    match cs.dropWhile Char.isDigit with
    | [] => some { major := major, minor := some minor, patch := none,
                   prerelease := none, build := none }
    | c :: rest => if c = '.' then parseVersionPatch major minor rest else none

/-- Modelled from the spec: the reading of a tag as a version (provenance.go
and its version utilities are not among the sources). The tag is `v`, a major
number, then optionally `.` and a minor number, then optionally `.` and a patch
number followed by an optional prerelease identifier and optional build
metadata. A prerelease identifier requires all three numeric components, as
the specification says; so does build metadata, as the cases `invalid
v1.2+123` and `invalid v1+123` of `Test_VerifyVersionedTag` require. -/
def parseVersionChars : List Char → Option Version
  | [] => none
  | c :: cs =>
    if c = 'v' then
      let major := cs.takeWhile Char.isDigit
      if major.isEmpty then none
      else
        match cs.dropWhile Char.isDigit with
        | [] => some { major := major, minor := none, patch := none,
                       prerelease := none, build := none }
        | c1 :: rest => if c1 = '.' then parseVersionMinor major rest else none
    else none

/-- Modelled from the spec: the reading of a tag as a version, on strings. -/
def parseVersion (tag : String) : Option Version :=
  parseVersionChars tag.data

/-- The value of an optional numeric component; an omitted one counts as 0. -/
def componentValue (c : Option (List Char)) : Nat :=
  match c with
  | none => 0
  | some ds => digitsValue ds

/-- Modelled from the spec: the matching of an attested version against an
expected one: equal at every numeric component the expected side specifies,
a component the attested side omits counting as 0; build metadata ignored;
prerelease identifiers equal, absent on both sides or present on both. -/
def versionMatches (attested expected : Version) : Bool :=
  digitsValue attested.major == digitsValue expected.major
  && (match expected.minor with
      | none => true
      | some m => digitsValue m == componentValue attested.minor)
  && (match expected.patch with
      | none => true
      | some pt => digitsValue pt == componentValue attested.patch)
  && attested.prerelease == expected.prerelease

/-- Modelled from the spec: `VerifyVersionedTag(provenance, expectedTag)`
(provenance.go is not among the sources). The attested tag and the expected
tag must both parse as versions, else `InvalidSemver`; they must match, else
`MismatchVersionedTag`. An error of the `GetTag` accessor is returned as it
is. -/
def VerifyVersionedTag (prov : Provenance) (expectedTag : String) : Except GoError Unit :=
  match prov.GetTag with
  | .error err => .error err
  | .ok tag =>
    match parseVersion tag, parseVersion expectedTag with
    | some attested, some expected =>
      if versionMatches attested expected then .ok ()
      else .error .ErrorMismatchVersionedTag
    | _, _ => .error .ErrorInvalidSemver

/-! ## URIs with and without their prefixes -/

/-- A URI with the `git+` prefix and the `https://` scheme put in front of it
or left out. -/
def withPrefixes (git scheme : Bool) (bare : String) : String :=
  String.mk ((if git then 'g' :: 'i' :: 't' :: '+' :: [] else [])
    ++ (if scheme then 'h' :: 't' :: 't' :: 'p' :: 's' :: ':' :: '/' :: '/' :: [] else [])
    ++ bare.data)

/-- A URI that has neither a `git+` prefix nor a scheme. -/
def isBareURI (bare : String) : Bool :=
  (afterScheme bare.data).isNone && !('g' :: 'i' :: 't' :: '+' :: []).isPrefixOf bare.data

/-! ## The written form of a version -/

/-- The text of an optional component behind its separator. -/
def renderPart (sep : Char) (part : Option (List Char)) : List Char :=
  match part with
  | none => []
  | some cs => sep :: cs

/-- What follows the major number in the text of a version. -/
def Version.renderTail (v : Version) : List Char :=
  renderPart '.' v.minor ++ (renderPart '.' v.patch
    ++ (renderPart '-' v.prerelease ++ renderPart '+' v.build))

/-- The text of a version: `v`, the major number, then each component that is
present behind its separator. -/
def Version.render (v : Version) : List Char :=
  'v' :: (v.major ++ v.renderTail)

/-- A non-empty string of decimal digits. -/
def isDigits (cs : List Char) : Bool :=
  !cs.isEmpty && cs.all Char.isDigit

/-- What the components past the major number must satisfy, in any form:
numeric minor and patch, a patch only behind a minor, a prerelease identifier
only behind a patch, non-empty and without `+`, and non-empty build
metadata. -/
def Version.tailForm (v : Version) : Bool :=
  v.minor.all isDigits && v.patch.all isDigits
  && (!v.patch.isSome || v.minor.isSome)
  && (!v.prerelease.isSome || v.patch.isSome)
  && v.prerelease.all (fun pre => !pre.isEmpty && !pre.contains '+')
  && v.build.all (fun b => !b.isEmpty)

/-- The form `v<major>[.<minor>[.<patch>[-<prerelease>]]][+<build>]` of the
specification, on components: build metadata may follow any number of numeric
components. -/
def Version.specForm (v : Version) : Bool :=
  isDigits v.major && v.tailForm

/-- The form `v<major>[.<minor>[.<patch>[-<prerelease>][+<build>]]]`, on
components: build metadata, like a prerelease identifier, only behind a
patch. -/
def Version.wellFormed (v : Version) : Bool :=
  isDigits v.major && v.tailForm && (!v.build.isSome || v.patch.isSome)

/-- A string of the form `v<major>[.<minor>[.<patch>[-<prerelease>]]][+<build>]`
of the specification. -/
def hasSpecVersionForm (tag : String) : Prop :=
  ∃ v : Version, v.specForm = true ∧ tag.data = v.render

/-- A string of the form `v<major>[.<minor>[.<patch>[-<prerelease>][+<build>]]]`. -/
def hasVersionForm (tag : String) : Prop :=
  ∃ v : Version, v.wellFormed = true ∧ tag.data = v.render

/-! ## Workflow input verification -/

/-- Modelled from the spec: the canonical string form of an attested input
value, which may be a boolean, a number or a string: a string is itself and a
boolean is `true` or `false`; the decimal text of a number is the parameter
`formatNumber`. Other values have no string form of their own and give the
empty string. -/
def canonicalString (formatNumber : Rat → String) : GoValue → String
  | .str s => s
  | .bool b => if b then "true" else "false"
  | .number q => formatNumber q
  | _ => ""

/-- Modelled from the spec: the check of one expected input against the
attested inputs: the key must be there and the canonical string form of its
value must equal the expected string. -/
def inputMatches (canonical : GoValue → String) (inputs : List (String × GoValue))
    (expectedInput : String × String) : Bool :=
  match inputs.lookup expectedInput.1 with
  | none => false
  | some v => canonical v == expectedInput.2

/-- Modelled from the spec: `VerifyWorkflowInputs(provenance, expectedInputs)`
(provenance.go is not among the sources). When the workflow inputs cannot be
read they are absent and the call fails with `MismatchWorkflowInputs`;
otherwise every expected input must match, else `MismatchWorkflowInputs`.
Attested inputs that are not expected are not looked at. The conversion of an
attested value to its canonical string form is the parameter `canonical`. -/
def VerifyWorkflowInputs (canonical : GoValue → String) (prov : Provenance)
    (expectedInputs : List (String × String)) : Except GoError Unit :=
  match prov.GetWorkflowInputs with
  | .error _ => .error .ErrorMismatchWorkflowInputs
  | .ok inputs =>
    if expectedInputs.all (inputMatches canonical inputs) then .ok ()
    else .error .ErrorMismatchWorkflowInputs

/-! ## The ref part of a source URI -/

/-- The text of a URI between its first `@` and its second `@`, or the end of
the URI when it has only one `@`; nothing when it has no `@`. -/
def refPart (uri : String) : Option String :=
  match (splitFirst '@' uri.data).2 with
  | none => none
  | some rest => some (String.mk (rest.takeWhile (fun c => c != '@')))

/-- The whole text of a URI after its first `@`; nothing when it has no
`@`. -/
def afterFirstAt (uri : String) : Option String :=
  (splitFirst '@' uri.data).2.map String.mk

/-- A BYOB provenance with the given subjects, external parameters and
resolved-dependency URIs; the other fields are empty. -/
def mkBYOB (subjects : List Subject) (ext : GoValue) (uris : List String) : BYOBProvenanceV1 :=
  { prov :=
    { Subject := subjects
      Predicate :=
      { BuildDefinition :=
        { BuildType := "https://github.com/slsa-framework/slsa-github-generator/delegator-generic@v0"
          ExternalParameters := ext
          InternalParameters := .null
          ResolvedDependencies := uris.map (fun u => { Name := "", URI := u, Digest := [] }) }
        RunDetails :=
        { Builder := { ID := "" }
          BuildMetadata := { InvocationID := "", StartedOn := none, FinishedOn := none } } } } }

/-! ## Helper lemmas -/

/-- The shape predicate accepts repository URIs with or without scheme and
ref, and rejects a missing or empty component. -/
theorem hasRepoShape_samples :
    hasRepoShape "git+https://github.com/o/r@refs/heads/main" = true ∧
    hasRepoShape "github.com/o/r" = true ∧
    hasRepoShape "https://github.com/o/r@v1" = true ∧
    hasRepoShape "https://github.com/o@v1" = false ∧
    hasRepoShape "https://github.com/o//@v1" = false := by
  decide


theorem asMapAny_eq_some (v : GoValue) (m : List (String × GoValue)) :
    v.asMapAny = some m ↔ v = .mapAny m := by
  cases v <;> simp [GoValue.asMapAny]

theorem asString_eq_some (v : GoValue) (s : String) :
    v.asString = some s ↔ v = .str s := by
  cases v <;> simp [GoValue.asString]

/-- The only error of `getValidateKey` is `ErrorInvalidFormat`. -/
theorem getValidateKey_error (m : List (String × GoValue)) (key : String) (e : GoError)
    (h : getValidateKey m key = .error e) : e = .ErrorInvalidFormat := by
  unfold getValidateKey at h
  split at h
  · cases h; rfl
  · split at h
    · cases h; rfl
    · split at h
      · cases h; rfl
      · cases h

/-- The function `getValidateKey` succeeds exactly on an entry that is
present, a string and non-empty, and returns it. -/
theorem getValidateKey_ok (m : List (String × GoValue)) (key vv : String) :
    getValidateKey m key = .ok vv ↔ m.lookup key = some (.str vv) ∧ vv ≠ "" := by
  unfold getValidateKey
  constructor
  · intro h
    split at h
    · cases h
    · rename_i v hv
      split at h
      · cases h
      · rename_i s hs
        split at h
        · cases h
        · rename_i hne
          cases h
          rw [asString_eq_some] at hs
          exact ⟨by rw [hv, hs], hne⟩
  · rintro ⟨hl, hne⟩
    simp [hl, GoValue.asString, hne]

/-- The scan of `verifyDigest` in closed form: success when some subject
carries the expected `sha256` digest; otherwise `MismatchHash` when a `sha256`
digest was seen and `InvalidDssePayload` when none was. -/
theorem verifyDigestScan_eq (expectedHash : String) (l : List Subject) (seen : Bool) :
    verifyDigestScan expectedHash l seen =
      if l.any (fun s => decide (s.sha256 = some expectedHash)) then .ok ()
      else if seen || l.any (fun s => s.sha256.isSome) then .error .ErrorMismatchHash
      else .error .ErrorInvalidDssePayload := by
  induction l generalizing seen with
  | nil => cases seen <;> simp [verifyDigestScan]
  | cons s rest ih =>
    unfold verifyDigestScan
    cases hs : s.sha256 with
    | none => simp [ih, hs]
    | some hash =>
      by_cases hh : hash = expectedHash
      · simp [hh, hs]
      · simp [hh, ih, hs]

theorem any_perm {α : Type} (f : α → Bool) {l₁ l₂ : List α} (hp : l₁.Perm l₂) :
    l₁.any f = l₂.any f := by
  rw [Bool.eq_iff_iff]
  simp only [List.any_eq_true]
  constructor
  · rintro ⟨x, hx, hfx⟩
    exact ⟨x, hp.mem_iff.1 hx, hfx⟩
  · rintro ⟨x, hx, hfx⟩
    exact ⟨x, hp.mem_iff.2 hx, hfx⟩

/-- No string starts with both `refs/heads` and `refs/tags`. -/
theorem not_heads_and_tags (s : String) :
    ¬ (stringsHasPrefix s "refs/heads" = true ∧ stringsHasPrefix s "refs/tags" = true) := by
  obtain ⟨l⟩ := s
  rcases l with _ | ⟨c0, _ | ⟨c1, _ | ⟨c2, _ | ⟨c3, _ | ⟨c4, _ | ⟨c5, l⟩⟩⟩⟩⟩⟩ <;>
    simp [stringsHasPrefix, List.isPrefixOf]
  intro _ _ _ _ _ h5 _ _ _ _ _ _ h5t
  rw [← h5] at h5t
  exact absurd h5t (by decide)

/-- With a workflow map of untyped values in the external parameters,
`triggerInfo` is decided by the three entries of that map. -/
theorem triggerInfo_of_workflow (p : BYOBProvenanceV1) (ext w : List (String × GoValue))
    (hext : p.prov.Predicate.BuildDefinition.ExternalParameters = .mapAny ext)
    (hw : ext.lookup "workflow" = some (.mapAny w)) :
    p.triggerInfo = triggerInfoOfWorkflow w := by
  unfold BYOBProvenanceV1.triggerInfo triggerInfoOfWorkflow
  simp only [hext, GoValue.asMapAny, hw]

/-- Without a workflow map of untyped values in the external parameters,
`triggerInfo` fails with `InvalidDssePayload`. -/
theorem triggerInfo_no_workflow (p : BYOBProvenanceV1)
    (h : ¬ ∃ ext w, p.prov.Predicate.BuildDefinition.ExternalParameters = .mapAny ext ∧
      ext.lookup "workflow" = some (.mapAny w)) :
    p.triggerInfo = .error .ErrorInvalidDssePayload := by
  unfold BYOBProvenanceV1.triggerInfo
  cases hE : p.prov.Predicate.BuildDefinition.ExternalParameters with
  | mapAny ext =>
    simp only [GoValue.asMapAny]
    cases hl : ext.lookup "workflow" with
    | none => rfl
    | some v =>
      cases v with
      | mapAny w => exact absurd ⟨ext, w, hE, hl⟩ h
      | _ => rfl
  | _ => rfl

/-- The outcomes of `triggerInfoOfWorkflow`: success with three non-empty
entries, `MalformedURI` when `ref` or `repository` is not valid, and
`InvalidFormat` when they are valid and `path` is not. -/
theorem triggerInfoOfWorkflow_cases (w : List (String × GoValue)) :
    (∃ repository ref path, triggerInfoOfWorkflow w = .ok (repository, ref, path) ∧
      getValidateKey w "ref" = .ok ref ∧ getValidateKey w "repository" = .ok repository ∧
      getValidateKey w "path" = .ok path) ∨
    (triggerInfoOfWorkflow w = .error .ErrorMalformedURI ∧
      ((∃ e, getValidateKey w "ref" = .error e) ∨
        (∃ e, getValidateKey w "repository" = .error e))) ∨
    (triggerInfoOfWorkflow w = .error .ErrorInvalidFormat ∧
      (∃ ref, getValidateKey w "ref" = .ok ref) ∧
      (∃ repository, getValidateKey w "repository" = .ok repository) ∧
      getValidateKey w "path" = .error .ErrorInvalidFormat) := by
  unfold triggerInfoOfWorkflow
  cases h1 : getValidateKey w "ref" with
  | error e => exact Or.inr (Or.inl ⟨rfl, Or.inl ⟨e, rfl⟩⟩)
  | ok ref =>
    cases h2 : getValidateKey w "repository" with
    | error e => exact Or.inr (Or.inl ⟨rfl, Or.inr ⟨e, rfl⟩⟩)
    | ok repository =>
      cases h3 : getValidateKey w "path" with
      | error e =>
        have he := getValidateKey_error w "path" e h3
        subst he
        exact Or.inr (Or.inr ⟨rfl, ⟨ref, rfl⟩, ⟨repository, rfl⟩, rfl⟩)
      | ok path => exact Or.inl ⟨repository, ref, path, rfl, rfl, rfl, rfl⟩

/-- Putting `git+` and `https://` in front of a bare URI does not change what
is left once they are stripped. -/
theorem normalize_withPrefixes (git scheme : Bool) (bare : String) (hb : isBareURI bare = true) :
    dropScheme (stripGitPlus (withPrefixes git scheme bare).data) = bare.data ∧
    dropScheme (stripGitPlus bare.data) = bare.data := by
  unfold isBareURI at hb
  simp only [Bool.and_eq_true, Option.isNone_iff_eq_none, Bool.not_eq_true'] at hb
  obtain ⟨hs, hg⟩ := hb
  have h0 : dropScheme bare.data = bare.data := by
    unfold dropScheme
    rw [hs]
  have h1 : stripGitPlus bare.data = bare.data := by
    unfold stripGitPlus
    rw [hg]
    simp
  refine ⟨?_, by rw [h1, h0]⟩
  cases git <;> cases scheme
  · simp only [withPrefixes, Bool.false_eq_true, if_false, List.nil_append]
    rw [h1, h0]
  · simp [withPrefixes, stripGitPlus, List.isPrefixOf, dropScheme, afterScheme]
  · simp [withPrefixes, stripGitPlus, List.isPrefixOf, h0]
  · simp [withPrefixes, stripGitPlus, List.isPrefixOf, dropScheme, afterScheme]

/-- Putting `git+` and `https://` in front of a bare URI does not change how
it parses. -/
theorem parseGitURI_withPrefixes (git scheme : Bool) (bare : String)
    (hb : isBareURI bare = true) :
    parseGitURI (withPrefixes git scheme bare) = parseGitURI bare := by
  unfold parseGitURI
  rw [(normalize_withPrefixes git scheme bare hb).1, (normalize_withPrefixes git scheme bare hb).2]

/-! ## Reading versions -/

theorem takeWhile_dropWhile_stop (p : Char → Bool) (ds rest : List Char)
    (hd : ∀ c ∈ ds, p c = true) (hr : ∀ c r, rest = c :: r → p c = false) :
    (ds ++ rest).takeWhile p = ds ∧ (ds ++ rest).dropWhile p = rest := by
  induction ds with
  | nil =>
    cases rest with
    | nil => simp
    | cons c r => simp [List.takeWhile, List.dropWhile, hr c r rfl]
  | cons d ds ih =>
    have hd' : ∀ c ∈ ds, p c = true := fun c hc => hd c (List.mem_cons_of_mem _ hc)
    have := ih hd'
    simp [List.takeWhile, List.dropWhile, hd d (List.mem_cons_self _ _), this]

theorem dropWhile_head (p : Char → Bool) (cs : List Char) (c : Char) (r : List Char)
    (h : cs.dropWhile p = c :: r) : p c = false := by
  induction cs with
  | nil => simp at h
  | cons d ds ih =>
    by_cases hp : p d = true
    · simp [List.dropWhile, hp] at h
      exact ih h
    · simp [List.dropWhile, hp] at h
      rw [← h.1]
      simpa using hp

/-- The two parts of `splitFirst` put the string back together, and the first
part is free of the separator. -/
theorem splitFirst_spec (sep : Char) (cs : List Char) :
    sep ∉ (splitFirst sep cs).1 ∧
    cs = (splitFirst sep cs).1 ++ renderPart sep (splitFirst sep cs).2 := by
  unfold splitFirst
  constructor
  · intro hmem
    have := List.mem_takeWhile_imp hmem
    simp at this
  · simp only
    have hcat := List.takeWhile_append_dropWhile (fun c => c != sep) cs
    cases hdrop : cs.dropWhile (fun c => c != sep) with
    | nil =>
      rw [hdrop] at hcat
      simp only [renderPart]
      exact hcat.symm
    | cons c r =>
      have hc := dropWhile_head _ cs c r hdrop
      simp only [bne_eq_false_iff_eq] at hc
      rw [hdrop, hc] at hcat
      simp only [renderPart]
      exact hcat.symm

/-- On a string built from a separator-free part and an optional rest behind
the separator, `splitFirst` returns the two. -/
theorem splitFirst_render (sep : Char) (a : List Char) (o : Option (List Char))
    (ha : sep ∉ a) : splitFirst sep (a ++ renderPart sep o) = (a, o) := by
  have hd : ∀ c ∈ a, (fun c => c != sep) c = true := by
    intro c hc
    simp only [bne_iff_ne, ne_eq]
    rintro rfl
    exact ha hc
  have hr : ∀ c r, renderPart sep o = c :: r → (fun c => c != sep) c = false := by
    intro c r h
    cases o with
    | none => simp [renderPart] at h
    | some b =>
      simp only [renderPart, List.cons.injEq] at h
      simp [h.1]
  obtain ⟨h1, h2⟩ := takeWhile_dropWhile_stop _ a (renderPart sep o) hd hr
  unfold splitFirst
  rw [h1, h2]
  cases o <;> simp [renderPart]

/-- The function `parseVersionSuffix` reads exactly the optional prerelease
identifier and build metadata it is given back as text. -/
theorem parseVersionSuffix_eq_some (cs : List Char) (pre build : Option (List Char)) :
    parseVersionSuffix cs = some (pre, build) ↔
      cs = renderPart '-' pre ++ renderPart '+' build ∧
      pre.all (fun x => !x.isEmpty && !x.contains '+') = true ∧
      build.all (fun b => !b.isEmpty) = true := by
  constructor
  · intro h
    unfold parseVersionSuffix at h
    cases cs with
    | nil =>
      simp only [Option.some.injEq, Prod.mk.injEq] at h
      obtain ⟨rfl, rfl⟩ := h
      simp [renderPart]
    | cons c rest =>
      simp only at h
      by_cases hc : c = '-'
      · rw [if_pos hc] at h
        obtain ⟨hfree, hcat⟩ := splitFirst_spec '+' rest
        by_cases hemp : (splitFirst '+' rest).1.isEmpty = true
        · simp [hemp] at h
        · simp only [hemp] at h
          cases h2 : (splitFirst '+' rest).2 with
          | none =>
            rw [h2] at h hcat
            simp only [Bool.false_eq_true, if_false, Option.some.injEq, Prod.mk.injEq] at h
            obtain ⟨rfl, rfl⟩ := h
            refine ⟨?_, ?_, by simp⟩
            · simp only [renderPart, List.append_nil] at hcat ⊢
              rw [hc, ← hcat]
            · simpa [List.contains_iff_exists_mem_beq, hfree] using hemp
          | some b =>
            rw [h2] at h hcat
            simp only [Bool.false_eq_true, if_false] at h
            by_cases hb : b.isEmpty = true
            · simp [hb] at h
            · simp only [hb, Bool.false_eq_true, if_false, Option.some.injEq, Prod.mk.injEq] at h
              obtain ⟨rfl, rfl⟩ := h
              refine ⟨?_, ?_, by simpa using hb⟩
              · simp only [renderPart] at hcat ⊢
                rw [hc, List.cons_append, ← hcat]
              · simpa [List.contains_iff_exists_mem_beq, hfree] using hemp
      · rw [if_neg hc] at h
        by_cases hp : c = '+'
        · rw [if_pos hp] at h
          by_cases hr : rest.isEmpty = true
          · simp [hr] at h
          · simp only [hr, Bool.false_eq_true, if_false, Option.some.injEq, Prod.mk.injEq] at h
            obtain ⟨rfl, rfl⟩ := h
            refine ⟨by simp [renderPart, hp], by simp, by simpa using hr⟩
        · rw [if_neg hp] at h
          cases h
  · rintro ⟨hcs, hpre, hbuild⟩
    subst hcs
    cases pre with
    | none =>
      cases build with
      | none => simp [renderPart, parseVersionSuffix]
      | some b =>
        simp only [Option.all_some, Bool.not_eq_true'] at hbuild
        simp [renderPart, parseVersionSuffix, hbuild]
    | some x =>
      simp only [Option.all_some, Bool.and_eq_true, Bool.not_eq_true',
        List.contains_iff_exists_mem_beq] at hpre
      have hfree : '+' ∉ x := by
        intro hmem
        have := hpre.2
        simp [List.contains_iff_exists_mem_beq, hmem] at this
      have hsplit := splitFirst_render '+' x build hfree
      simp only [renderPart, List.cons_append, parseVersionSuffix, if_true]
      simp only [renderPart] at hsplit
      cases build with
      | none =>
        simp only [List.append_nil] at hsplit ⊢
        rw [hsplit]
        simp [hpre.1]
      | some b =>
        simp only at hsplit ⊢
        rw [hsplit]
        simp only [Option.all_some, Bool.not_eq_true'] at hbuild
        simp [hpre.1, hbuild]

theorem isDigits_iff (cs : List Char) :
    isDigits cs = true ↔ cs ≠ [] ∧ ∀ c ∈ cs, c.isDigit = true := by
  unfold isDigits
  cases cs <;> simp

theorem isDigits_takeWhile (cs : List Char)
    (h : (cs.takeWhile Char.isDigit).isEmpty = false) :
    isDigits (cs.takeWhile Char.isDigit) = true := by
  rw [isDigits_iff]
  refine ⟨?_, fun c hc => List.mem_takeWhile_imp hc⟩
  intro hnil
  rw [hnil] at h
  simp at h

/-- The text of an optional prerelease identifier and build metadata does not
start with a digit. -/
theorem suffix_head_not_digit (pre build : Option (List Char)) :
    ∀ c r, renderPart '-' pre ++ renderPart '+' build = c :: r → c.isDigit = false := by
  intro c r h
  cases pre with
  | none =>
    cases build with
    | none => simp [renderPart] at h
    | some b =>
      simp only [renderPart, List.nil_append, List.cons.injEq] at h
      rw [← h.1]
      decide
  | some x =>
    simp only [renderPart, List.cons_append, List.cons.injEq] at h
    rw [← h.1]
    decide

/-- The function `parseVersionPatch` reads exactly a patch number followed by
an optional prerelease identifier and optional build metadata. -/
theorem parseVersionPatch_eq_some (major minor cs : List Char) (v : Version) :
    parseVersionPatch major minor cs = some v ↔
      v.major = major ∧ v.minor = some minor ∧
      ∃ patch, v.patch = some patch ∧ isDigits patch = true ∧
        cs = patch ++ (renderPart '-' v.prerelease ++ renderPart '+' v.build) ∧
        v.prerelease.all (fun x => !x.isEmpty && !x.contains '+') = true ∧
        v.build.all (fun b => !b.isEmpty) = true := by
  constructor
  · intro h
    unfold parseVersionPatch at h
    simp only at h
    by_cases hemp : (cs.takeWhile Char.isDigit).isEmpty = true
    · simp [hemp] at h
    · simp only [hemp, Bool.false_eq_true, if_false] at h
      cases hsuf : parseVersionSuffix (cs.dropWhile Char.isDigit) with
      | none => simp [hsuf] at h
      | some pb =>
        obtain ⟨pre, build⟩ := pb
        simp only [hsuf, Option.some.injEq] at h
        subst h
        rw [parseVersionSuffix_eq_some] at hsuf
        obtain ⟨hcat, hpre, hbuild⟩ := hsuf
        refine ⟨rfl, rfl, cs.takeWhile Char.isDigit, rfl,
          isDigits_takeWhile cs (by simpa using hemp), ?_, hpre, hbuild⟩
        simp only
        rw [← hcat, List.takeWhile_append_dropWhile]
  · rintro ⟨hmaj, hmin, patch, hpatch, hdig, hcs, hpre, hbuild⟩
    obtain ⟨vmajor, vminor, vpatch, vpre, vbuild⟩ := v
    simp only at hmaj hmin hpatch hcs hpre hbuild
    subst hmaj hmin hpatch
    rw [isDigits_iff] at hdig
    obtain ⟨h1, h2⟩ := takeWhile_dropWhile_stop Char.isDigit patch
      (renderPart '-' vpre ++ renderPart '+' vbuild) hdig.2 (suffix_head_not_digit vpre vbuild)
    have hsuf : parseVersionSuffix (renderPart '-' vpre ++ renderPart '+' vbuild)
        = some (vpre, vbuild) :=
      (parseVersionSuffix_eq_some _ vpre vbuild).2 ⟨rfl, hpre, hbuild⟩
    have hne : patch.isEmpty = false := by
      cases patch with
      | nil => exact absurd rfl hdig.1
      | cons _ _ => rfl
    unfold parseVersionPatch
    simp only [hcs, h1, h2, hsuf, hne, Bool.false_eq_true, if_false]

theorem isEmpty_false_of_isDigits (cs : List Char) (h : isDigits cs = true) :
    cs.isEmpty = false := by
  rw [isDigits_iff] at h
  cases cs with
  | nil => exact absurd rfl h.1
  | cons _ _ => rfl

/-- The function `parseVersionMinor` reads exactly the text that follows
`v<major>.` in a well-formed version with a minor number. -/
theorem parseVersionMinor_eq_some (major cs : List Char) (v : Version) :
    parseVersionMinor major cs = some v ↔
      v.major = major ∧ v.minor.isSome = true ∧ v.tailForm = true ∧
      (!v.build.isSome || v.patch.isSome) = true ∧ '.' :: cs = v.renderTail := by
  constructor
  · intro h
    unfold parseVersionMinor at h
    simp only at h
    by_cases hemp : (cs.takeWhile Char.isDigit).isEmpty = true
    · simp [hemp] at h
    · simp only [hemp, Bool.false_eq_true, if_false] at h
      have hdig := isDigits_takeWhile cs (by simpa using hemp)
      have hcat := List.takeWhile_append_dropWhile Char.isDigit cs
      cases hdrop : cs.dropWhile Char.isDigit with
      | nil =>
        rw [hdrop] at h hcat
        simp only [Option.some.injEq] at h
        subst h
        simp only [List.append_nil] at hcat
        refine ⟨rfl, rfl, ?_, rfl, ?_⟩
        · simp [Version.tailForm, hdig]
        · simp [Version.renderTail, renderPart, hcat]
      | cons c rest =>
        rw [hdrop] at h hcat
        simp only at h
        by_cases hc : c = '.'
        · rw [if_pos hc] at h
          rw [parseVersionPatch_eq_some] at h
          obtain ⟨hmaj, hmin, patch, hpatch, hpd, hrest, hpre, hbuild⟩ := h
          refine ⟨hmaj, by rw [hmin]; rfl, ?_, by rw [hpatch]; simp, ?_⟩
          · unfold Version.tailForm
            rw [hmin, hpatch, hpre, hbuild]
            simp [hdig, hpd]
          · conv_lhs => rw [← hcat]
            unfold Version.renderTail
            rw [hmin, hpatch, hc, hrest]
            rfl
        · rw [if_neg hc] at h
          cases h
  · rintro ⟨hmaj, hmin, htail, hb, hcs⟩
    obtain ⟨vmajor, vminor, vpatch, vpre, vbuild⟩ := v
    simp only at hmaj hmin hb
    subst hmaj
    cases vminor with
    | none => simp at hmin
    | some m =>
      cases vpatch with
      | none =>
        cases vpre with
        | some x => simp [Version.tailForm] at htail
        | none =>
          cases vbuild with
          | some b => simp at hb
          | none =>
            simp only [Version.tailForm, Option.all_some, Option.all_none, Option.isSome_none,
              Option.isSome_some, Bool.not_false, Bool.or_true, Bool.and_true,
              Bool.not_true, Bool.or_false] at htail
            simp only [Version.renderTail, renderPart, List.append_nil, List.cons.injEq,
              true_and] at hcs
            subst hcs
            have hd := (isDigits_iff cs).1 htail
            obtain ⟨h1, h2⟩ := takeWhile_dropWhile_stop Char.isDigit cs [] hd.2
              (fun c r h => by cases h)
            simp only [List.append_nil] at h1 h2
            unfold parseVersionMinor
            simp only [h1, h2, isEmpty_false_of_isDigits cs htail, Bool.false_eq_true, if_false]
      | some pt =>
        simp only [Version.tailForm, Option.all_some, Option.isSome_some, Bool.not_true,
          Bool.or_true, Bool.and_true, Bool.and_eq_true, Bool.false_or] at htail
        obtain ⟨⟨⟨hm, hpt⟩, hpre⟩, hbuild⟩ := htail
        simp only [Version.renderTail, renderPart, List.cons_append, List.cons.injEq,
          true_and] at hcs
        subst hcs
        have hd := (isDigits_iff m).1 hm
        obtain ⟨h1, h2⟩ := takeWhile_dropWhile_stop Char.isDigit m
          ('.' :: (pt ++ (renderPart '-' vpre ++ renderPart '+' vbuild))) hd.2
          (fun c r h => by
            simp only [List.cons.injEq] at h
            rw [← h.1]
            decide)
        have hp : parseVersionPatch vmajor m (pt ++ (renderPart '-' vpre ++ renderPart '+' vbuild))
            = some { major := vmajor, minor := some m, patch := some pt,
                     prerelease := vpre, build := vbuild } :=
          (parseVersionPatch_eq_some _ _ _ _).2 ⟨rfl, rfl, pt, rfl, hpt, rfl, hpre, hbuild⟩
        unfold parseVersionMinor
        simp only [renderPart] at h1 h2 hp ⊢
        simp only [h1, h2, isEmpty_false_of_isDigits m hm, Bool.false_eq_true, if_false,
          if_true, hp]

/-- The parser accepts exactly the text of well-formed versions, and returns
the version whose text it read. -/
theorem parseVersionChars_eq_some (cs : List Char) (v : Version) :
    parseVersionChars cs = some v ↔ v.wellFormed = true ∧ cs = v.render := by
  constructor
  · intro h
    unfold parseVersionChars at h
    cases cs with
    | nil => cases h
    | cons c cs1 =>
      simp only at h
      by_cases hc : c = 'v'
      · rw [if_pos hc] at h
        by_cases hemp : (cs1.takeWhile Char.isDigit).isEmpty = true
        · simp [hemp] at h
        · simp only [hemp, Bool.false_eq_true, if_false] at h
          have hdig := isDigits_takeWhile cs1 (by simpa using hemp)
          have hcat := List.takeWhile_append_dropWhile Char.isDigit cs1
          cases hdrop : cs1.dropWhile Char.isDigit with
          | nil =>
            rw [hdrop] at h hcat
            simp only [Option.some.injEq] at h
            subst h
            simp only [List.append_nil] at hcat
            refine ⟨?_, ?_⟩
            · simp [Version.wellFormed, Version.tailForm, hdig]
            · simp [Version.render, Version.renderTail, renderPart, hcat, hc]
          | cons c1 rest =>
            rw [hdrop] at h hcat
            simp only at h
            by_cases hc1 : c1 = '.'
            · rw [if_pos hc1] at h
              rw [parseVersionMinor_eq_some] at h
              obtain ⟨hmaj, _, htail, hb, hrt⟩ := h
              refine ⟨?_, ?_⟩
              · unfold Version.wellFormed
                rw [hmaj, hdig, htail, hb]
                rfl
              · unfold Version.render
                rw [hc, hmaj, ← hrt, ← hc1, hcat]
            · rw [if_neg hc1] at h
              cases h
      · rw [if_neg hc] at h
        cases h
  · rintro ⟨hwf, hcs⟩
    subst hcs
    unfold Version.wellFormed at hwf
    simp only [Bool.and_eq_true] at hwf
    obtain ⟨⟨hmaj, htail⟩, hb⟩ := hwf
    have hd := (isDigits_iff v.major).1 hmaj
    cases hmin : v.minor with
    | none =>
      obtain ⟨vmajor, vminor, vpatch, vpre, vbuild⟩ := v
      simp only at hmin hmaj htail hb hd
      subst hmin
      cases vpatch with
      | some pt => simp [Version.tailForm] at htail
      | none =>
        cases vpre with
        | some x => simp [Version.tailForm] at htail
        | none =>
          cases vbuild with
          | some b => simp at hb
          | none =>
            obtain ⟨h1, h2⟩ := takeWhile_dropWhile_stop Char.isDigit vmajor [] hd.2
              (fun c r h => by cases h)
            simp only [List.append_nil] at h1 h2
            simp only [Version.render, Version.renderTail, renderPart, List.append_nil,
              parseVersionChars, if_true, h1, h2, isEmpty_false_of_isDigits vmajor hmaj,
              Bool.false_eq_true, if_false]
    | some m =>
      have hrt : ∃ rest, v.renderTail = '.' :: rest := by
        unfold Version.renderTail
        rw [hmin]
        exact ⟨_, rfl⟩
      obtain ⟨rest, hrest⟩ := hrt
      obtain ⟨h1, h2⟩ := takeWhile_dropWhile_stop Char.isDigit v.major ('.' :: rest) hd.2
        (fun c r h => by
          simp only [List.cons.injEq] at h
          rw [← h.1]
          decide)
      have hp : parseVersionMinor v.major rest = some v :=
        (parseVersionMinor_eq_some _ _ _).2
          ⟨rfl, by rw [hmin]; rfl, htail, hb, hrest.symm⟩
      simp only [Version.render, hrest, parseVersionChars, if_true, h1, h2,
        isEmpty_false_of_isDigits v.major hmaj, Bool.false_eq_true, if_false, hp]

/-- What `versionMatches` decides, in words of the components. -/
theorem versionMatches_iff (a e : Version) :
    versionMatches a e = true ↔
      digitsValue a.major = digitsValue e.major ∧
      (∀ m, e.minor = some m → digitsValue m = componentValue a.minor) ∧
      (∀ pt, e.patch = some pt → digitsValue pt = componentValue a.patch) ∧
      a.prerelease = e.prerelease := by
  unfold versionMatches
  cases hm : e.minor <;> cases hp : e.patch <;>
    simp [and_assoc]

/-- The outcome of `VerifyVersionedTag` once both tags are read. -/
theorem VerifyVersionedTag_of_parsed (prov : Provenance) (tag expectedTag : String)
    (attested expected : Version) (hT : prov.GetTag = .ok tag)
    (ha : parseVersion tag = some attested) (he : parseVersion expectedTag = some expected) :
    VerifyVersionedTag prov expectedTag =
      if versionMatches attested expected then .ok () else .error .ErrorMismatchVersionedTag := by
  unfold VerifyVersionedTag
  rw [hT]
  simp only [ha, he]

/-- A version without its build metadata. -/
theorem render_build (v : Version) :
    v.render = ({ v with build := none } : Version).render ++ renderPart '+' v.build := by
  simp [Version.render, Version.renderTail, renderPart, List.append_assoc]

theorem wellFormed_drop_build (v : Version) (h : v.wellFormed = true) :
    ({ v with build := none } : Version).wellFormed = true := by
  unfold Version.wellFormed Version.tailForm at h ⊢
  simp only [Bool.and_eq_true] at h ⊢
  obtain ⟨⟨hmaj, ⟨⟨⟨⟨hmin, hpat⟩, hpm⟩, hprp⟩, hpre⟩, _⟩, _⟩ := h
  exact ⟨⟨hmaj, ⟨⟨⟨⟨hmin, hpat⟩, hpm⟩, hprp⟩, hpre⟩, rfl⟩, rfl⟩

theorem plus_not_mem_digits (cs : List Char) (h : ∀ c ∈ cs, c.isDigit = true) : '+' ∉ cs := by
  intro hmem
  have := h _ hmem
  revert this
  decide

theorem plus_not_mem_renderPart_digits (sep : Char) (hsep : sep ≠ '+')
    (o : Option (List Char)) (h : o.all isDigits = true) : '+' ∉ renderPart sep o := by
  cases o with
  | none => simp [renderPart]
  | some cs =>
    simp only [Option.all_some] at h
    have hd := ((isDigits_iff cs).1 h).2
    simp only [renderPart, List.mem_cons, not_or]
    exact ⟨fun h => hsep h.symm, plus_not_mem_digits cs hd⟩

/-- The text of a well-formed version without build metadata has no `+`. -/
theorem plus_not_mem_render (v : Version) (h : v.wellFormed = true) (hb : v.build = none) :
    '+' ∉ v.render := by
  unfold Version.wellFormed Version.tailForm at h
  simp only [Bool.and_eq_true] at h
  obtain ⟨⟨hmaj, ⟨⟨⟨⟨hmin, hpat⟩, _⟩, _⟩, hpre⟩, _⟩, _⟩ := h
  have h1 := plus_not_mem_digits v.major ((isDigits_iff _).1 hmaj).2
  have h2 := plus_not_mem_renderPart_digits '.' (by decide) v.minor hmin
  have h3 := plus_not_mem_renderPart_digits '.' (by decide) v.patch hpat
  have h4 : '+' ∉ renderPart '-' v.prerelease := by
    cases hp : v.prerelease with
    | none => simp [renderPart]
    | some x =>
      rw [hp] at hpre
      simp only [Option.all_some, Bool.and_eq_true, Bool.not_eq_true'] at hpre
      simp only [renderPart, List.mem_cons, not_or]
      refine ⟨by decide, ?_⟩
      intro hmem
      have := hpre.2
      simp [List.contains_iff_exists_mem_beq, hmem] at this
  unfold Version.render Version.renderTail
  rw [hb]
  simp only [renderPart, List.append_nil, List.mem_cons, List.mem_append, not_or]
  exact ⟨by decide, h1, h2, h3, h4⟩

/-- Reading a tag with build metadata behind a `+`-free core gives the
version read from the core alone, up to the build metadata. -/
theorem parseVersionChars_core (core : List Char) (b : Option (List Char)) (v : Version)
    (hcore : '+' ∉ core) (h : parseVersionChars (core ++ renderPart '+' b) = some v) :
    parseVersionChars core = some { v with build := none } := by
  rw [parseVersionChars_eq_some] at h
  obtain ⟨hwf, hcs⟩ := h
  have hwf' := wellFormed_drop_build v hwf
  have hfree := plus_not_mem_render _ hwf' rfl
  rw [render_build v] at hcs
  have h1 := splitFirst_render '+' core b hcore
  have h2 := splitFirst_render '+' _ v.build hfree
  rw [hcs, h2] at h1
  simp only [Prod.mk.injEq] at h1
  rw [parseVersionChars_eq_some]
  exact ⟨hwf', h1.1.symm⟩

/-- The matching of versions does not look at build metadata. -/
theorem versionMatches_drop_build (a e : Version) :
    versionMatches a e
      = versionMatches ({ a with build := none } : Version) ({ e with build := none } : Version) :=
  rfl

/-- A prerelease identifier is only read behind a minor and a patch number. -/
theorem wellFormed_prerelease (v : Version) (h : v.wellFormed = true)
    (hp : v.prerelease.isSome = true) : v.minor.isSome = true ∧ v.patch.isSome = true := by
  unfold Version.wellFormed Version.tailForm at h
  simp only [Bool.and_eq_true, Bool.or_eq_true, Bool.not_eq_true'] at h
  obtain ⟨⟨_, ⟨⟨⟨⟨_, _⟩, hpm⟩, hprp⟩, _⟩, _⟩, _⟩ := h
  have hpat : v.patch.isSome = true := by
    rcases hprp with h | h
    · rw [hp] at h; cases h
    · exact h
  refine ⟨?_, hpat⟩
  rcases hpm with h | h
  · rw [hpat] at h; cases h
  · exact h

/-! ## Accessors of the adapter and workflow inputs -/

/-- What `SourceURI` returns, by the shape of the resolved-dependency list. -/
theorem SourceURI_cases (p : BYOBProvenanceV1) :
    (p.prov.Predicate.BuildDefinition.ResolvedDependencies = [] ∧
      p.SourceURI = .error .ErrorInvalidDssePayload) ∨
    (∃ d rest, p.prov.Predicate.BuildDefinition.ResolvedDependencies = d :: rest ∧
      d.URI = "" ∧ p.SourceURI = .error .ErrorMalformedURI) ∨
    (∃ d rest, p.prov.Predicate.BuildDefinition.ResolvedDependencies = d :: rest ∧
      d.URI ≠ "" ∧ p.SourceURI = .ok d.URI) := by
  unfold BYOBProvenanceV1.SourceURI
  cases h : p.prov.Predicate.BuildDefinition.ResolvedDependencies with
  | nil => exact Or.inl ⟨rfl, rfl⟩
  | cons d rest =>
    by_cases hu : d.URI = ""
    · exact Or.inr (Or.inl ⟨d, rest, rfl, hu, by simp [hu]⟩)
    · exact Or.inr (Or.inr ⟨d, rest, rfl, hu, by simp [hu]⟩)

/-- A failure of `triggerInfo` is the failure of `TriggerURI`. -/
theorem TriggerURI_of_triggerInfo_error (p : BYOBProvenanceV1) (e : GoError)
    (h : p.triggerInfo = .error e) : p.TriggerURI = .error e := by
  simp only [BYOBProvenanceV1.TriggerURI, h]

/-- What `TriggerURI` makes of a success of `triggerInfo`. -/
theorem TriggerURI_of_triggerInfo_ok (p : BYOBProvenanceV1) (repository ref path : String)
    (h : p.triggerInfo = .ok (repository, ref, path)) :
    p.TriggerURI = if repository = "" ∨ ref = "" then .error .ErrorMalformedURI
      else .ok (repository ++ "@" ++ ref) := by
  simp only [BYOBProvenanceV1.TriggerURI, h]

/-- When `triggerInfo` succeeds, the external parameters hold a workflow map
of untyped values and the three results are its valid entries. -/
theorem triggerInfo_ok_inv (p : BYOBProvenanceV1) (repository ref path : String)
    (h : p.triggerInfo = .ok (repository, ref, path)) :
    ∃ ext w, p.prov.Predicate.BuildDefinition.ExternalParameters = .mapAny ext ∧
      ext.lookup "workflow" = some (.mapAny w) ∧
      getValidateKey w "ref" = .ok ref ∧
      getValidateKey w "repository" = .ok repository ∧
      getValidateKey w "path" = .ok path := by
  by_cases hwf : ∃ ext w, p.prov.Predicate.BuildDefinition.ExternalParameters = .mapAny ext ∧
      ext.lookup "workflow" = some (.mapAny w)
  · obtain ⟨ext, w, hext, hw⟩ := hwf
    rw [triggerInfo_of_workflow p ext w hext hw] at h
    rcases triggerInfoOfWorkflow_cases w with
      ⟨repository', ref', path', hok, href, hrepo, hpath⟩ | ⟨herr, _⟩ | ⟨herr, _⟩
    · rw [hok] at h
      simp only [Except.ok.injEq, Prod.mk.injEq] at h
      obtain ⟨rfl, rfl, rfl⟩ := h
      exact ⟨ext, w, hext, hw, href, hrepo, hpath⟩
    · rw [herr] at h; cases h
    · rw [herr] at h; cases h
  · rw [triggerInfo_no_workflow p hwf] at h
    cases h

/-- The pieces of `splitChars`: the text before the first separator, then the
pieces of what follows it. -/
theorem splitChars_eq (sep : Char) (cs : List Char) :
    splitChars sep cs = cs.takeWhile (fun c => c != sep) ::
      (match cs.dropWhile (fun c => c != sep) with
       | [] => []
       | _ :: rest => splitChars sep rest) := by
  induction cs with
  | nil => simp [splitChars]
  | cons c cs ih =>
    by_cases hc : c = sep
    · simp [splitChars, hc, List.takeWhile, List.dropWhile]
    · have hne : (c != sep) = true := by simpa using hc
      simp only [splitChars, hc, if_false, List.takeWhile, List.dropWhile, hne]
      rw [ih]

/-- The first two pieces of `stringsSplit` at `@`, by `refPart`. -/
theorem stringsSplit_refPart (u : String) :
    (refPart u = none ∧ ∃ part0, stringsSplit u '@' = [part0]) ∨
    (∃ s part0 parts, refPart u = some s ∧ stringsSplit u '@' = part0 :: s :: parts) := by
  unfold refPart stringsSplit splitFirst
  rw [splitChars_eq]
  cases hd : u.data.dropWhile (fun c => c != '@') with
  | nil => exact Or.inl ⟨rfl, _, rfl⟩
  | cons c rest =>
    right
    simp only
    rw [splitChars_eq '@' rest]
    exact ⟨_, _, _, rfl, rfl⟩

/-- What `GetBranch` returns on a source URI, by its ref part. -/
theorem GetBranch_of_SourceURI (p : BYOBProvenanceV1) (u : String) (hu : p.SourceURI = .ok u) :
    p.GetBranch = .ok (match refPart u with
      | some s => if stringsHasPrefix s "refs/heads" then s else ""
      | none => "") := by
  unfold BYOBProvenanceV1.GetBranch
  rw [hu]
  rcases stringsSplit_refPart u with ⟨hn, part0, hs⟩ | ⟨s, part0, parts, hr, hs⟩
  · simp only [hn, hs]
  · simp only [hr, hs]
    split <;> rfl

/-- What `GetTag` returns on a source URI, by its ref part. -/
theorem GetTag_of_SourceURI (p : BYOBProvenanceV1) (u : String) (hu : p.SourceURI = .ok u) :
    p.GetTag = .ok (match refPart u with
      | some s => if stringsHasPrefix s "refs/tags" then s else ""
      | none => "") := by
  unfold BYOBProvenanceV1.GetTag
  rw [hu]
  rcases stringsSplit_refPart u with ⟨hn, part0, hs⟩ | ⟨s, part0, parts, hr, hs⟩
  · simp only [hn, hs]
  · simp only [hr, hs]
    split <;> rfl

theorem isPrefixOf_takeWhile (p : Char → Bool) (pre rest : List Char)
    (h : pre.isPrefixOf rest = true) (hp : ∀ c ∈ pre, p c = true) :
    pre.isPrefixOf (rest.takeWhile p) = true := by
  induction pre generalizing rest with
  | nil => simp [List.isPrefixOf]
  | cons a pre ih =>
    cases rest with
    | nil => simp [List.isPrefixOf] at h
    | cons b rest =>
      simp only [List.isPrefixOf, Bool.and_eq_true, beq_iff_eq] at h
      obtain ⟨hab, hrest⟩ := h
      subst hab
      have ha : p a = true := hp a (List.mem_cons_self _ _)
      simp only [List.takeWhile, ha, List.isPrefixOf, Bool.and_eq_true, beq_self_eq_true,
        true_and]
      exact ih rest hrest (fun c hc => hp c (List.mem_cons_of_mem _ hc))

theorem takeWhile_of_not_mem (sep : Char) (cs : List Char) (h : sep ∉ cs) :
    cs.takeWhile (fun c => c != sep) = cs := by
  rw [List.takeWhile_eq_self_iff]
  intro c hc
  simp only [bne_iff_ne, ne_eq]
  rintro rfl
  exact h hc

/-- What `inputMatches` decides. -/
theorem inputMatches_iff (canonical : GoValue → String) (inputs : List (String × GoValue))
    (k v : String) :
    inputMatches canonical inputs (k, v) = true ↔
      ∃ a, inputs.lookup k = some a ∧ canonical a = v := by
  unfold inputMatches
  cases h : inputs.lookup k with
  | none => simp
  | some a => simp

/-- The outcome of `VerifyWorkflowInputs` once the inputs are read. -/
theorem VerifyWorkflowInputs_of_inputs (canonical : GoValue → String) (prov : Provenance)
    (inputs : List (String × GoValue)) (expectedInputs : List (String × String))
    (h : prov.GetWorkflowInputs = .ok inputs) :
    VerifyWorkflowInputs canonical prov expectedInputs =
      if expectedInputs.all (inputMatches canonical inputs) then .ok ()
      else .error .ErrorMismatchWorkflowInputs := by
  simp only [VerifyWorkflowInputs, h]

/-! ## Claims -/

/-- C1: when the resolved-dependency list is non-empty and its first URI is
non-empty, `SourceURI` succeeds and returns exactly that first URI, whatever
the other resolved dependencies are. -/
theorem SourceURI_first_dependency (p : BYOBProvenanceV1) (d : ResourceDescriptor)
    (rest : List ResourceDescriptor)
    (hdeps : p.prov.Predicate.BuildDefinition.ResolvedDependencies = d :: rest)
    (huri : d.URI ≠ "") :
    p.SourceURI = .ok d.URI := by
  unfold BYOBProvenanceV1.SourceURI
  rw [hdeps]
  simp [huri]

/-- Witness of C1: three resolved dependencies, the first with a non-empty URI. -/
theorem SourceURI_first_dependency_witness :
    (mkBYOB [] .null ["git+https://github.com/o/r@refs/heads/main", "", "x"]).SourceURI
      = .ok "git+https://github.com/o/r@refs/heads/main" :=
  SourceURI_first_dependency
    (mkBYOB [] .null ["git+https://github.com/o/r@refs/heads/main", "", "x"])
    { Name := "", URI := "git+https://github.com/o/r@refs/heads/main", Digest := [] }
    [{ Name := "", URI := "", Digest := [] }, { Name := "", URI := "x", Digest := [] }]
    rfl (by decide)

/-- C2: when the external parameters are a string-keyed map holding under
`workflow` a string-keyed map whose `ref`, `repository` and `path` entries are
non-empty strings, `TriggerURI` succeeds and returns the repository, then `@`,
then the ref. -/
theorem TriggerURI_repository_at_ref (p : BYOBProvenanceV1)
    (ext w : List (String × GoValue)) (ref repository path : String)
    (hext : p.prov.Predicate.BuildDefinition.ExternalParameters = .mapAny ext)
    (hw : ext.lookup "workflow" = some (.mapAny w))
    (href : w.lookup "ref" = some (.str ref)) (hrefne : ref ≠ "")
    (hrepo : w.lookup "repository" = some (.str repository)) (hrepone : repository ≠ "")
    (hpath : w.lookup "path" = some (.str path)) (hpathne : path ≠ "") :
    p.TriggerURI = .ok (repository ++ "@" ++ ref) := by
  have h1 : getValidateKey w "ref" = .ok ref := (getValidateKey_ok w "ref" ref).2 ⟨href, hrefne⟩
  have h2 : getValidateKey w "repository" = .ok repository :=
    (getValidateKey_ok w "repository" repository).2 ⟨hrepo, hrepone⟩
  have h3 : getValidateKey w "path" = .ok path :=
    (getValidateKey_ok w "path" path).2 ⟨hpath, hpathne⟩
  unfold BYOBProvenanceV1.TriggerURI BYOBProvenanceV1.triggerInfo
  simp [hext, GoValue.asMapAny, hw, h1, h2, h3, hrefne, hrepone]

/-- Witness of C2: a workflow map with the three entries. -/
theorem TriggerURI_repository_at_ref_witness :
    (mkBYOB [] (.mapAny [("workflow", .mapAny [("ref", .str "refs/heads/main"),
      ("repository", .str "https://github.com/o/r"),
      ("path", .str ".github/workflows/x.yml")])]) []).TriggerURI
      = .ok ("https://github.com/o/r" ++ "@" ++ "refs/heads/main") :=
  TriggerURI_repository_at_ref _
    [("workflow", .mapAny [("ref", .str "refs/heads/main"),
      ("repository", .str "https://github.com/o/r"),
      ("path", .str ".github/workflows/x.yml")])]
    [("ref", .str "refs/heads/main"), ("repository", .str "https://github.com/o/r"),
      ("path", .str ".github/workflows/x.yml")]
    "refs/heads/main" "https://github.com/o/r" ".github/workflows/x.yml"
    rfl rfl rfl (by decide) rfl (by decide) rfl (by decide)

/-- C3: `Subjects` fails exactly when the subject list is empty, and then with
`InvalidDssePayload`; otherwise it returns the subject list unchanged, so a
successful result is never empty. -/
theorem Subjects_empty_iff_error (p : BYOBProvenanceV1) :
    (p.Subjects = .error .ErrorInvalidDssePayload ↔ p.prov.Subject = []) ∧
    (∀ e, p.Subjects = .error e → e = .ErrorInvalidDssePayload) ∧
    (p.prov.Subject ≠ [] → p.Subjects = .ok p.prov.Subject) ∧
    (∀ subj, p.Subjects = .ok subj → subj = p.prov.Subject ∧ subj ≠ []) := by
  unfold BYOBProvenanceV1.Subjects
  by_cases h : p.prov.Subject = []
  · simp [h]
  · have hl : p.prov.Subject.length ≠ 0 := by
      intro hl
      exact h (List.length_eq_zero.mp hl)
    simp only [hl, if_false]
    refine ⟨by simp [h], by simp, by simp, ?_⟩
    intro subj hs
    cases hs
    exact ⟨rfl, h⟩

/-- Witness of C3: a statement with one subject. -/
theorem Subjects_empty_iff_error_witness :
    (mkBYOB [{ Name := "a", Digest := [("sha256", "00")] }] .null []).Subjects
      = .ok [{ Name := "a", Digest := [("sha256", "00")] }] :=
  (Subjects_empty_iff_error
    (mkBYOB [{ Name := "a", Digest := [("sha256", "00")] }] .null [])).2.2.1 (by decide)

/-- C4: `verifyDigest` succeeds exactly when some subject carries a `sha256`
digest equal to the expected hash; and two provenances whose subject lists are
permutations of one another get the same outcome, so the position of the
matching subject plays no part. -/
theorem verifyDigest_ok_iff (prov : Provenance) (expectedHash : String) :
    (verifyDigest prov expectedHash = .ok () ↔
      ∃ subjects, prov.Subjects = .ok subjects ∧
        ∃ s ∈ subjects, s.Digest.lookup "sha256" = some expectedHash) ∧
    (∀ (other : Provenance) (l₁ l₂ : List Subject),
      prov.Subjects = .ok l₁ → other.Subjects = .ok l₂ → l₁.Perm l₂ →
      verifyDigest other expectedHash = verifyDigest prov expectedHash) := by
  constructor
  · unfold verifyDigest
    cases hs : prov.Subjects with
    | error e => simp
    | ok subjects =>
      have hiff : subjects.any (fun s => decide (s.sha256 = some expectedHash)) = true ↔
          ∃ s ∈ subjects, s.Digest.lookup "sha256" = some expectedHash := by
        simp [List.any_eq_true, Subject.sha256]
      simp only [verifyDigestScan_eq]
      by_cases hany : subjects.any (fun s => decide (s.sha256 = some expectedHash)) = true
      · rw [if_pos hany]
        exact ⟨fun _ => ⟨subjects, rfl, hiff.1 hany⟩, fun _ => rfl⟩
      · rw [if_neg hany]
        constructor
        · intro h
          split at h <;> cases h
        · rintro ⟨l, hl, hex⟩
          cases hl
          exact absurd (hiff.2 hex) hany
  · intro other l₁ l₂ h₁ h₂ hp
    unfold verifyDigest
    rw [h₁, h₂]
    simp only [verifyDigestScan_eq]
    rw [any_perm _ hp, any_perm (fun s => s.sha256.isSome) hp]

/-- Witness of C4: two subjects in either order, the expected hash on one of them. -/
theorem verifyDigest_ok_iff_witness :
    verifyDigest ((mkBYOB [{ Name := "a", Digest := [("sha256", "01")] },
        { Name := "b", Digest := [("sha256", "02")] }] .null []).toProvenance (fun m => .ok m)) "02"
      = verifyDigest ((mkBYOB [{ Name := "b", Digest := [("sha256", "02")] },
        { Name := "a", Digest := [("sha256", "01")] }] .null []).toProvenance (fun m => .ok m)) "02" :=
  (verifyDigest_ok_iff
    ((mkBYOB [{ Name := "b", Digest := [("sha256", "02")] },
        { Name := "a", Digest := [("sha256", "01")] }] .null []).toProvenance (fun m => .ok m))
    "02").2 _
    [{ Name := "b", Digest := [("sha256", "02")] }, { Name := "a", Digest := [("sha256", "01")] }]
    [{ Name := "a", Digest := [("sha256", "01")] }, { Name := "b", Digest := [("sha256", "02")] }]
    rfl rfl (List.Perm.swap _ _ _)

/-- C5: when the subjects are read and none carries a `sha256` digest (in
particular when there is none), `verifyDigest` fails with `InvalidDssePayload`;
when some subject carries a `sha256` digest and none equals the expected hash,
it fails with `MismatchHash`; and on a BYOB provenance with an empty subject
list it fails with `InvalidDssePayload`. -/
theorem verifyDigest_error_kind (prov : Provenance) (expectedHash : String)
    (subjects : List Subject) (hsubj : prov.Subjects = .ok subjects) :
    ((∀ s ∈ subjects, s.Digest.lookup "sha256" = none) →
      verifyDigest prov expectedHash = .error .ErrorInvalidDssePayload) ∧
    ((∃ s ∈ subjects, s.Digest.lookup "sha256" ≠ none) →
      (∀ s ∈ subjects, s.Digest.lookup "sha256" ≠ some expectedHash) →
      verifyDigest prov expectedHash = .error .ErrorMismatchHash) ∧
    (∀ (p : BYOBProvenanceV1)
      (common : List (String × GoValue) → Except GoError (List (String × GoValue))),
      p.prov.Subject = [] →
      verifyDigest (p.toProvenance common) expectedHash = .error .ErrorInvalidDssePayload) := by
  refine ⟨?_, ?_, ?_⟩
  · intro hnone
    unfold verifyDigest
    rw [hsubj]
    simp only [verifyDigestScan_eq]
    have h1 : subjects.any (fun s => decide (s.sha256 = some expectedHash)) = false := by
      rw [List.any_eq_false]
      intro s hs
      simp [Subject.sha256, hnone s hs]
    have h2 : subjects.any (fun s => s.sha256.isSome) = false := by
      rw [List.any_eq_false]
      intro s hs
      simp [Subject.sha256, hnone s hs]
    simp [h1, h2]
  · rintro ⟨s, hs, hsome⟩ hne
    unfold verifyDigest
    rw [hsubj]
    simp only [verifyDigestScan_eq]
    have h1 : subjects.any (fun s => decide (s.sha256 = some expectedHash)) = false := by
      rw [List.any_eq_false]
      intro s hs
      simp [Subject.sha256, hne s hs]
    have h2 : subjects.any (fun s => s.sha256.isSome) = true := by
      rw [List.any_eq_true]
      exact ⟨s, hs, by simpa [Subject.sha256, Option.isSome_iff_ne_none] using hsome⟩
    simp [h1, h2]
  · intro p common hempty
    simp [verifyDigest, BYOBProvenanceV1.toProvenance, BYOBProvenanceV1.Subjects, hempty]

/-- Witness of C5: a subject without `sha256` and one with another `sha256` digest. -/
theorem verifyDigest_error_kind_witness :
    verifyDigest ((mkBYOB [{ Name := "a", Digest := [("sha512", "aa")] },
        { Name := "b", Digest := [("sha256", "02")] }] .null []).toProvenance (fun m => .ok m)) "03"
      = .error .ErrorMismatchHash :=
  (verifyDigest_error_kind
    ((mkBYOB [{ Name := "a", Digest := [("sha512", "aa")] },
        { Name := "b", Digest := [("sha256", "02")] }] .null []).toProvenance (fun m => .ok m))
    "03"
    [{ Name := "a", Digest := [("sha512", "aa")] }, { Name := "b", Digest := [("sha256", "02")] }]
    rfl).2.1 (by decide) (by decide)

/-- C6: when `GetBranch` and `GetTag` both succeed, at most one of the two
results is a non-empty string. -/
theorem GetBranch_GetTag_exclusive (p : BYOBProvenanceV1) (branch tag : String)
    (hb : p.GetBranch = .ok branch) (ht : p.GetTag = .ok tag) :
    branch = "" ∨ tag = "" := by
  unfold BYOBProvenanceV1.GetBranch at hb
  unfold BYOBProvenanceV1.GetTag at ht
  cases hsrc : p.SourceURI with
  | error e => rw [hsrc] at hb; cases hb
  | ok sourceURI =>
    rw [hsrc] at hb ht
    simp only at hb ht
    rcases hsplit : stringsSplit sourceURI '@' with _ | ⟨part0, _ | ⟨part1, parts⟩⟩
    · rw [hsplit] at hb; cases hb; exact Or.inl rfl
    · rw [hsplit] at hb; cases hb; exact Or.inl rfl
    · rw [hsplit] at hb ht
      simp only at hb ht
      by_cases hh : stringsHasPrefix part1 "refs/heads" = true
      · by_cases htg : stringsHasPrefix part1 "refs/tags" = true
        · exact absurd ⟨hh, htg⟩ (not_heads_and_tags part1)
        · rw [if_neg htg] at ht; cases ht; exact Or.inr rfl
      · rw [if_neg hh] at hb; cases hb; exact Or.inl rfl

/-- Witness of C6: a source URI with a branch ref. -/
theorem GetBranch_GetTag_exclusive_witness :
    (mkBYOB [] .null ["git+https://github.com/o/r@refs/heads/main"]).GetBranch
      = .ok "refs/heads/main" ∧
    (mkBYOB [] .null ["git+https://github.com/o/r@refs/heads/main"]).GetTag = .ok "" ∧
    ("refs/heads/main" = "" ∨ "" = "") :=
  ⟨by decide, by decide,
    GetBranch_GetTag_exclusive
      (mkBYOB [] .null ["git+https://github.com/o/r@refs/heads/main"])
      "refs/heads/main" "" (by decide) (by decide)⟩

/-- C7: on external parameters whose `workflow` entry is a map from strings
to untyped values, as JSON decoding produces it, `GetBuildTriggerPath` fails
with `InvalidDssePayload`, whatever the map holds; on the payload with
`path = .github/workflows/release.yml`, `triggerInfo` reads that path from the
same map while `GetBuildTriggerPath` fails. -/
theorem GetBuildTriggerPath_untyped_workflow_fails :
    (∀ (subjects : List Subject) (w rest : List (String × GoValue)) (uris : List String),
      (mkBYOB subjects (.mapAny (("workflow", .mapAny w) :: rest)) uris).GetBuildTriggerPath
        = .error .ErrorInvalidDssePayload) ∧
    (mkBYOB [] (.mapAny [("workflow", .mapAny [("ref", .str "refs/heads/main"),
      ("repository", .str "https://github.com/o/r"),
      ("path", .str ".github/workflows/release.yml")])]) []).GetBuildTriggerPath
      = .error .ErrorInvalidDssePayload ∧
    (mkBYOB [] (.mapAny [("workflow", .mapAny [("ref", .str "refs/heads/main"),
      ("repository", .str "https://github.com/o/r"),
      ("path", .str ".github/workflows/release.yml")])]) []).triggerInfo
      = .ok ("https://github.com/o/r", "refs/heads/main", ".github/workflows/release.yml") := by
  refine ⟨?_, by decide, by decide⟩
  intro subjects w rest uris
  simp [BYOBProvenanceV1.GetBuildTriggerPath, mkBYOB, GoValue.asMapAny, List.lookup,
    GoValue.asMapStr]

/-- C8: on a source URI whose ref after `@` is neither a branch ref nor a tag
ref (here `refs/pull/7/merge`), `GetBranch` and `GetTag` both succeed with the
empty string; neither fails with `InvalidDssePayload`. -/
theorem GetBranch_GetTag_unrecognized_ref :
    (mkBYOB [] .null ["git+https://github.com/o/r@refs/pull/7/merge"]).SourceURI
      = .ok "git+https://github.com/o/r@refs/pull/7/merge" ∧
    (mkBYOB [] .null ["git+https://github.com/o/r@refs/pull/7/merge"]).GetBranch = .ok "" ∧
    (mkBYOB [] .null ["git+https://github.com/o/r@refs/pull/7/merge"]).GetTag = .ok "" := by
  decide

/-- C9, as stated, fails: `SourceURI` returns `x` and `TriggerURI` returns
`x@r`, and neither has the shape `[scheme]host/org/repo[@ref]`. -/
theorem SourceURI_TriggerURI_shape_counterexample :
    (mkBYOB [] (.mapAny [("workflow", .mapAny [("ref", .str "r"), ("repository", .str "x"),
      ("path", .str "p")])]) ["x"]).SourceURI = .ok "x" ∧
    hasRepoShape "x" = false ∧
    (mkBYOB [] (.mapAny [("workflow", .mapAny [("ref", .str "r"), ("repository", .str "x"),
      ("path", .str "p")])]) ["x"]).TriggerURI = .ok "x@r" ∧
    hasRepoShape "x@r" = false := by
  decide

/-- C9, amended: a string returned by `SourceURI` is the URI of the first
resolved dependency and is not empty; a string returned by `TriggerURI` is
`repository@ref` for the non-empty string entries `repository` and `ref` of
the workflow map. -/
theorem SourceURI_TriggerURI_result (p : BYOBProvenanceV1) (u : String) :
    (p.SourceURI = .ok u →
      u ≠ "" ∧ ∃ d rest, p.prov.Predicate.BuildDefinition.ResolvedDependencies = d :: rest ∧
        u = d.URI) ∧
    (p.TriggerURI = .ok u →
      ∃ ext w repository ref,
        p.prov.Predicate.BuildDefinition.ExternalParameters = .mapAny ext ∧
        ext.lookup "workflow" = some (.mapAny w) ∧
        w.lookup "repository" = some (.str repository) ∧ repository ≠ "" ∧
        w.lookup "ref" = some (.str ref) ∧ ref ≠ "" ∧
        u = repository ++ "@" ++ ref) := by
  constructor
  · intro h
    unfold BYOBProvenanceV1.SourceURI at h
    split at h
    · cases h
    · rename_i d rest hdeps
      split at h
      · cases h
      · rename_i hne
        cases h
        exact ⟨hne, d, rest, hdeps, rfl⟩
  · intro h
    by_cases hwf : ∃ ext w, p.prov.Predicate.BuildDefinition.ExternalParameters = .mapAny ext ∧
        ext.lookup "workflow" = some (.mapAny w)
    · obtain ⟨ext, w, hext, hw⟩ := hwf
      unfold BYOBProvenanceV1.TriggerURI at h
      rw [triggerInfo_of_workflow p ext w hext hw] at h
      rcases triggerInfoOfWorkflow_cases w with
        ⟨repository, ref, path, hok, href, hrepo, _⟩ | ⟨herr, _⟩ | ⟨herr, _⟩
      · rw [hok] at h
        simp only at h
        split at h
        · cases h
        · cases h
          rw [getValidateKey_ok] at href hrepo
          exact ⟨ext, w, repository, ref, hext, hw, hrepo.1, hrepo.2, href.1, href.2, rfl⟩
      · rw [herr] at h; cases h
      · rw [herr] at h; cases h
    · unfold BYOBProvenanceV1.TriggerURI at h
      rw [triggerInfo_no_workflow p hwf] at h
      cases h

/-- Witness of C9, amended: the source URI `x`. -/
theorem SourceURI_TriggerURI_result_witness :
    (mkBYOB [] .null ["x"]).SourceURI = .ok "x" ∧
    ("x" ≠ "" ∧ ∃ d rest,
      (mkBYOB [] .null ["x"]).prov.Predicate.BuildDefinition.ResolvedDependencies = d :: rest ∧
        "x" = d.URI) :=
  ⟨by decide, (SourceURI_TriggerURI_result (mkBYOB [] .null ["x"]) "x").1 (by decide)⟩

/-- C10, as stated, fails: with valid `ref` and `repository` entries and no
`path` entry, `TriggerURI` fails with `InvalidFormat`. -/
theorem TriggerURI_error_kind_counterexample :
    (mkBYOB [] (.mapAny [("workflow", .mapAny [("ref", .str "refs/heads/main"),
      ("repository", .str "https://github.com/o/r")])]) []).TriggerURI
      = .error .ErrorInvalidFormat := by
  decide

/-- C10, amended: a failure of `TriggerURI` is of kind `MalformedURI`,
`InvalidDssePayload` or `InvalidFormat`, and it is of kind `InvalidFormat`
exactly when the workflow map has valid `ref` and `repository` entries and its
`path` entry is missing, not a string, or empty. -/
theorem TriggerURI_error_kinds (p : BYOBProvenanceV1) :
    (∀ e, p.TriggerURI = .error e →
      e = .ErrorMalformedURI ∨ e = .ErrorInvalidDssePayload ∨ e = .ErrorInvalidFormat) ∧
    (p.TriggerURI = .error .ErrorInvalidFormat ↔
      ∃ ext w ref repository,
        p.prov.Predicate.BuildDefinition.ExternalParameters = .mapAny ext ∧
        ext.lookup "workflow" = some (.mapAny w) ∧
        getValidateKey w "ref" = .ok ref ∧
        getValidateKey w "repository" = .ok repository ∧
        getValidateKey w "path" = .error .ErrorInvalidFormat) := by
  by_cases hwf : ∃ ext w, p.prov.Predicate.BuildDefinition.ExternalParameters = .mapAny ext ∧
      ext.lookup "workflow" = some (.mapAny w)
  · obtain ⟨ext, w, hext, hw⟩ := hwf
    have hT : p.TriggerURI = match triggerInfoOfWorkflow w with
        | .error err => .error err
        | .ok (repository, ref, _) =>
          if repository = "" ∨ ref = "" then .error .ErrorMalformedURI
          else .ok (repository ++ "@" ++ ref) := by
      unfold BYOBProvenanceV1.TriggerURI
      rw [triggerInfo_of_workflow p ext w hext hw]
    rw [hT]
    rcases triggerInfoOfWorkflow_cases w with
      ⟨repository, ref, path, hok, href, hrepo, hpath⟩ | ⟨herr, hbad⟩ | ⟨herr, ⟨ref, href⟩, ⟨repository, hrepo⟩, hpath⟩
    · rw [hok]
      simp only
      constructor
      · intro e he
        split at he
        · cases he; exact Or.inl rfl
        · cases he
      · constructor
        · intro he
          split at he <;> cases he
        · rintro ⟨ext2, w2, ref2, repository2, hext2, hw2, _, _, hpath2⟩
          rw [hext] at hext2
          cases hext2
          rw [hw] at hw2
          cases hw2
          rw [hpath] at hpath2
          cases hpath2
    · rw [herr]
      simp only
      constructor
      · intro e he
        cases he
        exact Or.inl rfl
      · constructor
        · intro he; cases he
        · rintro ⟨ext2, w2, ref2, repository2, hext2, hw2, href2, hrepo2, _⟩
          rw [hext] at hext2
          cases hext2
          rw [hw] at hw2
          cases hw2
          rcases hbad with ⟨e, he⟩ | ⟨e, he⟩
          · rw [href2] at he; cases he
          · rw [hrepo2] at he; cases he
    · rw [herr]
      simp only
      constructor
      · intro e he
        cases he
        exact Or.inr (Or.inr rfl)
      · exact ⟨fun _ => ⟨ext, w, ref, repository, hext, hw, href, hrepo, hpath⟩, fun _ => trivial⟩
  · have hT : p.TriggerURI = .error .ErrorInvalidDssePayload := by
      unfold BYOBProvenanceV1.TriggerURI
      rw [triggerInfo_no_workflow p hwf]
    rw [hT]
    constructor
    · intro e he
      cases he
      exact Or.inr (Or.inl rfl)
    · constructor
      · intro he; cases he
      · rintro ⟨ext, w, _, _, hext, hw, _⟩
        exact absurd ⟨ext, w, hext, hw⟩ hwf

/-- Witness of C10, amended: a workflow map without `ref`. -/
theorem TriggerURI_error_kinds_witness :
    (mkBYOB [] (.mapAny [("workflow", .mapAny [("repository", .str "https://github.com/o/r"),
      ("path", .str "p")])]) []).TriggerURI = .error .ErrorMalformedURI ∧
    (GoError.ErrorMalformedURI = .ErrorMalformedURI ∨
      GoError.ErrorMalformedURI = .ErrorInvalidDssePayload ∨
      GoError.ErrorMalformedURI = .ErrorInvalidFormat) :=
  ⟨by decide, (TriggerURI_error_kinds
    (mkBYOB [] (.mapAny [("workflow", .mapAny [("repository", .str "https://github.com/o/r"),
      ("path", .str "p")])]) [])).1 .ErrorMalformedURI (by decide)⟩


/-- C11: when the external parameters are not a string-keyed map, or have no
`workflow` entry, or their `workflow` entry is not a string-keyed map of
untyped values, `TriggerURI` fails with `InvalidDssePayload`. -/
theorem TriggerURI_no_workflow_map (p : BYOBProvenanceV1)
    (h : p.prov.Predicate.BuildDefinition.ExternalParameters.asMapAny = none ∨
      (∃ ext, p.prov.Predicate.BuildDefinition.ExternalParameters = .mapAny ext ∧
        ext.lookup "workflow" = none) ∨
      (∃ ext v, p.prov.Predicate.BuildDefinition.ExternalParameters = .mapAny ext ∧
        ext.lookup "workflow" = some v ∧ v.asMapAny = none)) :
    p.TriggerURI = .error .ErrorInvalidDssePayload := by
  have hno : ¬ ∃ ext w, p.prov.Predicate.BuildDefinition.ExternalParameters = .mapAny ext ∧
      ext.lookup "workflow" = some (.mapAny w) := by
    rintro ⟨ext, w, hext, hw⟩
    rcases h with h | ⟨ext2, hext2, hnone⟩ | ⟨ext2, v, hext2, hv, hvn⟩
    · rw [hext] at h
      simp [GoValue.asMapAny] at h
    · rw [hext] at hext2
      cases hext2
      rw [hw] at hnone
      cases hnone
    · rw [hext] at hext2
      cases hext2
      rw [hw] at hv
      cases hv
      simp [GoValue.asMapAny] at hvn
  unfold BYOBProvenanceV1.TriggerURI
  rw [triggerInfo_no_workflow p hno]

/-- Witness of C11: a `workflow` entry of dynamic type `map[string]string`. -/
theorem TriggerURI_no_workflow_map_witness :
    (mkBYOB [] (.mapAny [("workflow", .mapStr [("ref", "refs/heads/main"),
      ("repository", "https://github.com/o/r"), ("path", "p")])]) []).TriggerURI
      = .error .ErrorInvalidDssePayload :=
  TriggerURI_no_workflow_map _
    (Or.inr (Or.inr ⟨[("workflow", .mapStr [("ref", "refs/heads/main"),
      ("repository", "https://github.com/o/r"), ("path", "p")])],
      .mapStr [("ref", "refs/heads/main"), ("repository", "https://github.com/o/r"),
        ("path", "p")], rfl, rfl, rfl⟩))

/-- C12: with bare URIs fixed (host, org, repo and ref), `verifySourceURI`
returns the same outcome whether or not `git+` and `https://` stand in front
of the expected source URI, of the attested source URI and of the attested
trigger URI. -/
theorem verifySourceURI_prefix_invariant (prov : Provenance)
    (source trigger expected : String) (allowNoMaterialRef : Bool)
    (g₁ c₁ g₂ c₂ g₃ c₃ : Bool)
    (hs : isBareURI source = true) (ht : isBareURI trigger = true)
    (he : isBareURI expected = true) :
    verifySourceURI
        { prov with SourceURI := .ok (withPrefixes g₁ c₁ source),
                    TriggerURI := .ok (withPrefixes g₂ c₂ trigger) }
        (withPrefixes g₃ c₃ expected) allowNoMaterialRef
      = verifySourceURI { prov with SourceURI := .ok source, TriggerURI := .ok trigger }
        expected allowNoMaterialRef := by
  unfold verifySourceURI
  simp only [parseGitURI_withPrefixes _ _ _ hs, parseGitURI_withPrefixes _ _ _ ht,
    parseGitURI_withPrefixes _ _ _ he]

/-- Witness of C12: the case `match source no git+https` of
`Test_verifySourceURI` against its bare form. -/
theorem verifySourceURI_prefix_invariant_witness :
    verifySourceURI
        { ({} : testProvenance).toProvenance with
          SourceURI := .ok (withPrefixes true true "github.com/some/repo@v1.2.3"),
          TriggerURI := .ok (withPrefixes true true "github.com/some/repo@v1.2.3") }
        (withPrefixes false false "github.com/some/repo") false
      = verifySourceURI
        { ({} : testProvenance).toProvenance with
          SourceURI := .ok "github.com/some/repo@v1.2.3",
          TriggerURI := .ok "github.com/some/repo@v1.2.3" }
        "github.com/some/repo" false :=
  verifySourceURI_prefix_invariant _ "github.com/some/repo@v1.2.3"
    "github.com/some/repo@v1.2.3" "github.com/some/repo" false true true true true false false
    (by decide) (by decide) (by decide)

/-- C13: with an expected source URI that parses as `github.com/org/repo`
without ref, and attested source and trigger URIs that parse and carry the
same non-empty ref, `verifySourceURI` fails with `MismatchSource` as soon as
the org or the repo of the source URI or of the trigger URI differs from that
of the expected URI; one difference suffices. -/
theorem verifySourceURI_mismatch_source (prov : Provenance)
    (fullSourceURI fullTriggerURI expectedSourceURI : String) (allowNoMaterialRef : Bool)
    (source trigger expected : GitURI)
    (hexp : parseGitURI expectedSourceURI = some expected)
    (hhost : expected.host = "github.com") (hnoref : expected.ref = none)
    (hS : prov.SourceURI = .ok fullSourceURI) (hsrc : parseGitURI fullSourceURI = some source)
    (hT : prov.TriggerURI = .ok fullTriggerURI) (htrig : parseGitURI fullTriggerURI = some trigger)
    (href : source.hasRef = true) (hrefeq : source.ref = trigger.ref)
    (hdiff : source.org ≠ expected.org ∨ source.repo ≠ expected.repo ∨
      trigger.org ≠ expected.org ∨ trigger.repo ≠ expected.repo) :
    verifySourceURI prov expectedSourceURI allowNoMaterialRef = .error .ErrorMismatchSource := by
  have htref : trigger.hasRef = true := by
    unfold GitURI.hasRef at href ⊢
    rw [← hrefeq]
    exact href
  unfold verifySourceURI
  simp only [hexp, hnoref, hhost, hS, hsrc, hT, htrig, href, htref, hrefeq]
  rcases hdiff with h | h | h | h <;> simp [h]

/-- Witness of C13: the case `mismatch materials configSource org` of
`Test_verifySourceURI`, where only the org of the trigger URI differs. -/
theorem verifySourceURI_mismatch_source_witness :
    verifySourceURI
        ({ sourceURI := "git+https://github.com/some/repo@v1.2.3",
           triggerURI := "git+https://github.com/other/repo@v1.2.3" } : testProvenance).toProvenance
        "git+https://github.com/some/repo" false
      = .error .ErrorMismatchSource :=
  verifySourceURI_mismatch_source _ "git+https://github.com/some/repo@v1.2.3"
    "git+https://github.com/other/repo@v1.2.3" "git+https://github.com/some/repo" false
    { host := "github.com", org := "some", repo := "repo", ref := some "v1.2.3" }
    { host := "github.com", org := "other", repo := "repo", ref := some "v1.2.3" }
    { host := "github.com", org := "some", repo := "repo", ref := none }
    (by decide) (by decide) (by decide) rfl (by decide) rfl (by decide) (by decide) (by decide)
    (by decide)

/-- C14: with an expected source URI that parses as `github.com/org/repo`
without ref and attested URIs that parse: when the source URI has no ref, the
trigger URI carries one and org and repo match, `verifySourceURI` succeeds if
`allowNoMaterialRef` is true and fails with `MalformedURI` if it is false; when
both carry refs that differ, it fails with `InvalidDssePayload`. -/
theorem verifySourceURI_material_ref (prov : Provenance)
    (fullSourceURI fullTriggerURI expectedSourceURI : String)
    (source trigger expected : GitURI)
    (hexp : parseGitURI expectedSourceURI = some expected)
    (hhost : expected.host = "github.com") (hnoref : expected.ref = none)
    (hS : prov.SourceURI = .ok fullSourceURI) (hsrc : parseGitURI fullSourceURI = some source)
    (hT : prov.TriggerURI = .ok fullTriggerURI) (htrig : parseGitURI fullTriggerURI = some trigger)
    (htref : trigger.hasRef = true) :
    (source.ref = none →
      source.org = expected.org → source.repo = expected.repo →
      trigger.org = expected.org → trigger.repo = expected.repo →
      verifySourceURI prov expectedSourceURI true = .ok () ∧
      verifySourceURI prov expectedSourceURI false = .error .ErrorMalformedURI) ∧
    (source.hasRef = true → source.ref ≠ trigger.ref →
      ∀ allowNoMaterialRef,
        verifySourceURI prov expectedSourceURI allowNoMaterialRef
          = .error .ErrorInvalidDssePayload) := by
  constructor
  · intro hnone ho hr hto htr
    have hsref : source.hasRef = false := by
      unfold GitURI.hasRef
      rw [hnone]
    unfold verifySourceURI
    simp [hexp, hnoref, hhost, hS, hsrc, hT, htrig, htref, hsref, ho, hr, hto, htr]
  · intro hsref hne allowNoMaterialRef
    unfold verifySourceURI
    simp [hexp, hnoref, hhost, hS, hsrc, hT, htrig, htref, hsref, hne]

/-- Witness of C14: the cases `match source no git no material ref` and
`match source no git no material ref ref not allowed` of
`Test_verifySourceURI`. -/
theorem verifySourceURI_material_ref_witness :
    verifySourceURI
        ({ sourceURI := "git+https://github.com/some/repo",
           triggerURI := "git+https://github.com/some/repo@v1.2.3" } : testProvenance).toProvenance
        "https://github.com/some/repo" true = .ok () ∧
    verifySourceURI
        ({ sourceURI := "git+https://github.com/some/repo",
           triggerURI := "git+https://github.com/some/repo@v1.2.3" } : testProvenance).toProvenance
        "https://github.com/some/repo" false = .error .ErrorMalformedURI :=
  (verifySourceURI_material_ref _ "git+https://github.com/some/repo"
    "git+https://github.com/some/repo@v1.2.3" "https://github.com/some/repo"
    { host := "github.com", org := "some", repo := "repo", ref := none }
    { host := "github.com", org := "some", repo := "repo", ref := some "v1.2.3" }
    { host := "github.com", org := "some", repo := "repo", ref := none }
    (by decide) (by decide) (by decide) rfl (by decide) rfl (by decide) (by decide)).1
    rfl (by decide) (by decide) (by decide) (by decide)

/-- C15: when the builder ID is read, `verifyBuilderIDExactMatch` succeeds
exactly when the attested and the expected builder ID are the same non-empty
string, `@version` suffix included, and fails with `MismatchBuilderID` in every
other case. -/
theorem verifyBuilderIDExactMatch_iff (prov : Provenance) (id expectedBuilderID : String)
    (hid : prov.BuilderID = .ok id) :
    (verifyBuilderIDExactMatch prov expectedBuilderID = .ok () ↔
      id = expectedBuilderID ∧ id ≠ "") ∧
    (¬ (id = expectedBuilderID ∧ id ≠ "") →
      verifyBuilderIDExactMatch prov expectedBuilderID = .error .ErrorMismatchBuilderID) := by
  unfold verifyBuilderIDExactMatch
  rw [hid]
  simp only
  by_cases h : id = "" ∨ expectedBuilderID = "" ∨ id ≠ expectedBuilderID
  · rw [if_pos h]
    have hn : ¬ (id = expectedBuilderID ∧ id ≠ "") := by
      rintro ⟨heq, hne⟩
      rcases h with h | h | h
      · exact hne h
      · exact hne (heq.trans h)
      · exact h heq
    exact ⟨⟨fun hh => (by cases hh), fun hh => absurd hh hn⟩, fun _ => rfl⟩
  · rw [if_neg h]
    have hy : id = expectedBuilderID ∧ id ≠ "" := by
      refine ⟨?_, fun h1 => h (Or.inl h1)⟩
      by_contra hne
      exact h (Or.inr (Or.inr hne))
    exact ⟨⟨fun _ => hy, fun _ => rfl⟩, fun hn => absurd hy hn⟩

/-- Witness of C15: the case `same builderID mismatch version` of
`Test_verifyBuilderIDExactMatch`. -/
theorem verifyBuilderIDExactMatch_iff_witness :
    verifyBuilderIDExactMatch
        ({ builderID := "some/builderID@v1.2.3" } : testProvenance).toProvenance
        "some/builderID@v1.2.4" = .error .ErrorMismatchBuilderID :=
  (verifyBuilderIDExactMatch_iff _ "some/builderID@v1.2.3" "some/builderID@v1.2.4" rfl).2
    (by decide)

/-- C16: for tags that both parse as versions without prerelease identifier,
`VerifyVersionedTag` succeeds exactly when the attested tag agrees with the
expected one on major and on each of minor and patch that the expected tag
specifies, a component the attested tag omits counting as 0; otherwise it
fails with `MismatchVersionedTag`. -/
theorem VerifyVersionedTag_numeric_components (prov : Provenance) (tag expectedTag : String)
    (attested expected : Version) (hT : prov.GetTag = .ok tag)
    (ha : parseVersion tag = some attested) (he : parseVersion expectedTag = some expected)
    (hpa : attested.prerelease = none) (hpe : expected.prerelease = none) :
    (VerifyVersionedTag prov expectedTag = .ok () ↔
      digitsValue attested.major = digitsValue expected.major ∧
      (∀ m, expected.minor = some m → digitsValue m = componentValue attested.minor) ∧
      (∀ pt, expected.patch = some pt → digitsValue pt = componentValue attested.patch)) ∧
    (VerifyVersionedTag prov expectedTag ≠ .ok () →
      VerifyVersionedTag prov expectedTag = .error .ErrorMismatchVersionedTag) := by
  rw [VerifyVersionedTag_of_parsed prov tag expectedTag attested expected hT ha he]
  by_cases hm : versionMatches attested expected = true
  · rw [if_pos hm]
    have := (versionMatches_iff attested expected).1 hm
    exact ⟨⟨fun _ => ⟨this.1, this.2.1, this.2.2.1⟩, fun _ => rfl⟩, fun h => absurd rfl h⟩
  · rw [if_neg hm]
    refine ⟨⟨fun h => (by cases h), fun h => ?_⟩, fun _ => rfl⟩
    exact absurd ((versionMatches_iff attested expected).2
      ⟨h.1, h.2.1, h.2.2, by rw [hpa, hpe]⟩) hm

/-- Witness of C16: the case `tag v1.2 no match v1.2.3` of
`Test_VerifyVersionedTag`. -/
theorem VerifyVersionedTag_numeric_components_witness :
    VerifyVersionedTag ({ tag := "v1.2" } : testProvenance).toProvenance "v1.2.3"
      = .error .ErrorMismatchVersionedTag :=
  (VerifyVersionedTag_numeric_components
    ({ tag := "v1.2" } : testProvenance).toProvenance "v1.2" "v1.2.3"
    { major := ['1'], minor := some ['2'], patch := none, prerelease := none, build := none }
    { major := ['1'], minor := some ['2'], patch := some ['3'], prerelease := none,
      build := none }
    rfl (by decide) (by decide) rfl rfl).2 (by decide)

/-- C17, as stated, fails: the attested tag `v1.2.3` matches the expected tag
`v1.2` (case `tag v1.2.3 match v1.2` of `Test_VerifyVersionedTag`). -/
theorem VerifyVersionedTag_samples_counterexample :
    VerifyVersionedTag ({ tag := "v1.2.3" } : testProvenance).toProvenance "v1.2" = .ok () := by
  decide

/-- C17, amended: expected `v1` matches the attested tags `v1.2.3`, `v1.2` and
`v1.0.0`; expected `v1.2` matches the attested tags `v1.2.0`, `v1.2.0+123` and
`v1.2.3`; the attested tag `v1.2` matches the expected tags `v1.2.0` and
`v1.2.0+123` and not the expected tag `v1.2.3`. -/
theorem VerifyVersionedTag_samples :
    VerifyVersionedTag ({ tag := "v1.2.3" } : testProvenance).toProvenance "v1" = .ok () ∧
    VerifyVersionedTag ({ tag := "v1.2" } : testProvenance).toProvenance "v1" = .ok () ∧
    VerifyVersionedTag ({ tag := "v1.0.0" } : testProvenance).toProvenance "v1" = .ok () ∧
    VerifyVersionedTag ({ tag := "v1.2.0" } : testProvenance).toProvenance "v1.2" = .ok () ∧
    VerifyVersionedTag ({ tag := "v1.2.0+123" } : testProvenance).toProvenance "v1.2" = .ok () ∧
    VerifyVersionedTag ({ tag := "v1.2.3" } : testProvenance).toProvenance "v1.2" = .ok () ∧
    VerifyVersionedTag ({ tag := "v1.2" } : testProvenance).toProvenance "v1.2.0" = .ok () ∧
    VerifyVersionedTag ({ tag := "v1.2" } : testProvenance).toProvenance "v1.2.0+123" = .ok () ∧
    VerifyVersionedTag ({ tag := "v1.2" } : testProvenance).toProvenance "v1.2.3"
      = .error .ErrorMismatchVersionedTag := by
  decide

/-- C18, as stated, fails: the tag `v1.2` parses as a version and matches the
attested tag `v1.2`, and with the build metadata `+123` added to it the
outcome becomes `InvalidSemver` (cases `tag v1.2 exact v1.2` and `invalid
v1.2+123` of `Test_VerifyVersionedTag`). -/
theorem VerifyVersionedTag_build_ignored_counterexample :
    (parseVersion "v1.2").isSome = true ∧
    VerifyVersionedTag ({ tag := "v1.2" } : testProvenance).toProvenance "v1.2" = .ok () ∧
    VerifyVersionedTag ({ tag := "v1.2" } : testProvenance).toProvenance "v1.2+123"
      = .error .ErrorInvalidSemver := by
  decide

/-- C18, amended: with `+`-free cores fixed, and every tag involved parsing
as a version before and after the change, the outcome of `VerifyVersionedTag`
is the same whatever build metadata, or none, follows the core of the attested
tag and of the expected tag. -/
theorem VerifyVersionedTag_build_ignored (prov prov' : Provenance)
    (core expectedCore : List Char) (b b' eb eb' : Option (List Char))
    (hcore : '+' ∉ core) (hecore : '+' ∉ expectedCore)
    (hT : prov.GetTag = .ok (String.mk (core ++ renderPart '+' b)))
    (hT' : prov'.GetTag = .ok (String.mk (core ++ renderPart '+' b')))
    (hp₁ : (parseVersion (String.mk (core ++ renderPart '+' b))).isSome = true)
    (hp₂ : (parseVersion (String.mk (core ++ renderPart '+' b'))).isSome = true)
    (hp₃ : (parseVersion (String.mk (expectedCore ++ renderPart '+' eb))).isSome = true)
    (hp₄ : (parseVersion (String.mk (expectedCore ++ renderPart '+' eb'))).isSome = true) :
    VerifyVersionedTag prov (String.mk (expectedCore ++ renderPart '+' eb))
      = VerifyVersionedTag prov' (String.mk (expectedCore ++ renderPart '+' eb')) := by
  obtain ⟨v₁, h₁⟩ := Option.isSome_iff_exists.1 hp₁
  obtain ⟨v₂, h₂⟩ := Option.isSome_iff_exists.1 hp₂
  obtain ⟨v₃, h₃⟩ := Option.isSome_iff_exists.1 hp₃
  obtain ⟨v₄, h₄⟩ := Option.isSome_iff_exists.1 hp₄
  rw [VerifyVersionedTag_of_parsed prov _ _ v₁ v₃ hT h₁ h₃,
    VerifyVersionedTag_of_parsed prov' _ _ v₂ v₄ hT' h₂ h₄]
  have c₁ := parseVersionChars_core core b v₁ hcore h₁
  have c₂ := parseVersionChars_core core b' v₂ hcore h₂
  have c₃ := parseVersionChars_core expectedCore eb v₃ hecore h₃
  have c₄ := parseVersionChars_core expectedCore eb' v₄ hecore h₄
  rw [c₁] at c₂
  rw [c₃] at c₄
  simp only [Option.some.injEq] at c₂ c₄
  rw [versionMatches_drop_build v₁ v₃, versionMatches_drop_build v₂ v₄, c₂, c₄]

/-- Witness of C18: the cases `tag v1.2.3-alpha+123 match v1.2.3-alpha+456`
and `tag v1.2.3-alpha match v1.2.3-alpha` of `Test_VerifyVersionedTag`. -/
theorem VerifyVersionedTag_build_ignored_witness :
    VerifyVersionedTag ({ tag := "v1.2.3-alpha+123" } : testProvenance).toProvenance
        "v1.2.3-alpha+456"
      = VerifyVersionedTag ({ tag := "v1.2.3-alpha" } : testProvenance).toProvenance
        "v1.2.3-alpha" :=
  VerifyVersionedTag_build_ignored
    ({ tag := "v1.2.3-alpha+123" } : testProvenance).toProvenance
    ({ tag := "v1.2.3-alpha" } : testProvenance).toProvenance
    "v1.2.3-alpha".data "v1.2.3-alpha".data (some "123".data) none (some "456".data) none
    (by decide) (by decide) rfl rfl (by decide) (by decide) (by decide) (by decide)

/-- C19: for tags that both parse as versions, `VerifyVersionedTag` fails
with `MismatchVersionedTag` when one tag carries a prerelease identifier the
other does not carry, or when they carry different ones; and for an attested
tag with a prerelease identifier it succeeds exactly when the expected tag
carries the same identifier and the same major, minor and patch numbers. -/
theorem VerifyVersionedTag_prerelease (prov : Provenance) (tag expectedTag : String)
    (attested expected : Version) (hT : prov.GetTag = .ok tag)
    (ha : parseVersion tag = some attested) (he : parseVersion expectedTag = some expected) :
    (attested.prerelease ≠ expected.prerelease →
      VerifyVersionedTag prov expectedTag = .error .ErrorMismatchVersionedTag) ∧
    (∀ pre, attested.prerelease = some pre →
      (VerifyVersionedTag prov expectedTag = .ok () ↔
        expected.prerelease = some pre ∧
        digitsValue attested.major = digitsValue expected.major ∧
        componentValue attested.minor = componentValue expected.minor ∧
        componentValue attested.patch = componentValue expected.patch)) := by
  rw [VerifyVersionedTag_of_parsed prov tag expectedTag attested expected hT ha he]
  constructor
  · intro hne
    have hm : ¬ versionMatches attested expected = true := fun hm =>
      hne ((versionMatches_iff attested expected).1 hm).2.2.2
    rw [if_neg hm]
  · intro pre hpre
    have hewf := ((parseVersionChars_eq_some _ _).1 he).1
    by_cases hm : versionMatches attested expected = true
    · rw [if_pos hm]
      obtain ⟨hmaj, hmin, hpat, hp⟩ := (versionMatches_iff attested expected).1 hm
      have hep : expected.prerelease = some pre := by rw [← hp, hpre]
      obtain ⟨hmi, hpa⟩ := wellFormed_prerelease expected hewf (by rw [hep]; rfl)
      obtain ⟨m, hm'⟩ := Option.isSome_iff_exists.1 hmi
      obtain ⟨pt, hpt'⟩ := Option.isSome_iff_exists.1 hpa
      refine ⟨fun _ => ⟨hep, hmaj, ?_, ?_⟩, fun _ => rfl⟩
      · rw [hm']
        exact (hmin m hm').symm
      · rw [hpt']
        exact (hpat pt hpt').symm
    · rw [if_neg hm]
      refine ⟨fun h => (by cases h), ?_⟩
      rintro ⟨hep, hmaj, hmin, hpat⟩
      refine absurd ((versionMatches_iff attested expected).2 ⟨hmaj, ?_, ?_, ?_⟩) hm
      · intro m hm'
        rw [hmin, hm']
        rfl
      · intro pt hpt'
        rw [hpat, hpt']
        rfl
      · rw [hpre, hep]

/-- Witness of C19: the case `tag v1.2.3-alpha no match v1.2.3` of
`Test_VerifyVersionedTag`. -/
theorem VerifyVersionedTag_prerelease_witness :
    VerifyVersionedTag ({ tag := "v1.2.3-alpha" } : testProvenance).toProvenance "v1.2.3"
      = .error .ErrorMismatchVersionedTag :=
  (VerifyVersionedTag_prerelease
    ({ tag := "v1.2.3-alpha" } : testProvenance).toProvenance "v1.2.3-alpha" "v1.2.3"
    { major := ['1'], minor := some ['2'], patch := some ['3'],
      prerelease := some "alpha".data, build := none }
    { major := ['1'], minor := some ['2'], patch := some ['3'], prerelease := none,
      build := none }
    rfl (by decide) (by decide)).1 (by decide)

/-- C20, as stated, fails: `v1+123` has the form
`v<major>[.<minor>[.<patch>[-<prerelease>]]][+<build>]` and does not parse, so
`VerifyVersionedTag` fails with `InvalidSemver` on it (case `invalid v1+123`
of `Test_VerifyVersionedTag`). -/
theorem parseVersion_spec_form_counterexample :
    hasSpecVersionForm "v1+123" ∧ parseVersion "v1+123" = none ∧
    VerifyVersionedTag ({ tag := "v1.2" } : testProvenance).toProvenance "v1+123"
      = .error .ErrorInvalidSemver :=
  ⟨⟨{ major := ['1'], minor := none, patch := none, prerelease := none,
      build := some ['1', '2', '3'] }, by decide, by decide⟩, by decide, by decide⟩

/-- C20, amended: a tag parses as a version exactly when it has the form
`v<major>[.<minor>[.<patch>[-<prerelease>][+<build>]]]`, and when the attested
tag is read `VerifyVersionedTag` fails with `InvalidSemver` exactly when the
attested or the expected tag is not of that form. -/
theorem parseVersion_accepts_iff (prov : Provenance) (tag expectedTag : String)
    (hT : prov.GetTag = .ok tag) :
    (∀ s : String, (parseVersion s).isSome = true ↔ hasVersionForm s) ∧
    (VerifyVersionedTag prov expectedTag = .error .ErrorInvalidSemver ↔
      ¬ hasVersionForm tag ∨ ¬ hasVersionForm expectedTag) := by
  have hform : ∀ s : String, (parseVersion s).isSome = true ↔ hasVersionForm s := by
    intro s
    unfold hasVersionForm parseVersion
    rw [Option.isSome_iff_exists]
    constructor
    · rintro ⟨v, hv⟩
      exact ⟨v, (parseVersionChars_eq_some _ _).1 hv⟩
    · rintro ⟨v, hv⟩
      exact ⟨v, (parseVersionChars_eq_some _ _).2 hv⟩
  refine ⟨hform, ?_⟩
  rw [← hform tag, ← hform expectedTag]
  cases ha : parseVersion tag with
  | none =>
    have hv : VerifyVersionedTag prov expectedTag = .error .ErrorInvalidSemver := by
      unfold VerifyVersionedTag
      rw [hT]
      simp only [ha]
    rw [hv]
    simp
  | some a =>
    cases he : parseVersion expectedTag with
    | none =>
      have hv : VerifyVersionedTag prov expectedTag = .error .ErrorInvalidSemver := by
        unfold VerifyVersionedTag
        rw [hT]
        simp only [ha, he]
      rw [hv]
      simp
    | some e =>
      rw [VerifyVersionedTag_of_parsed prov tag expectedTag a e hT ha he]
      simp only [Option.isSome_some, not_true_eq_false, or_self, iff_false]
      split <;> simp

/-- Witness of C20, amended: the case `invalid v1.2+123` of
`Test_VerifyVersionedTag`. -/
theorem parseVersion_accepts_iff_witness :
    ¬ hasVersionForm "v1.2+123" ∧
    VerifyVersionedTag ({ tag := "v1.2" } : testProvenance).toProvenance "v1.2+123"
      = .error .ErrorInvalidSemver :=
  ⟨fun h => absurd (((parseVersion_accepts_iff
      ({ tag := "v1.2" } : testProvenance).toProvenance "v1.2" "v1.2+123" rfl).1 "v1.2+123").2 h)
      (by decide),
    by decide⟩

/-- C21: `VerifyWorkflowInputs` succeeds exactly when the workflow inputs are
read and every expected key is attested with a value whose canonical string
form is the expected string; when the inputs are read, every failure (a missing
key or an unequal value) is `MismatchWorkflowInputs`; success for a set of expected inputs gives success for each of its subsets;
and two provenances whose attested inputs agree on the expected keys get the
same outcome, whatever other keys they attest. -/
theorem VerifyWorkflowInputs_required_subset (canonical : GoValue → String)
    (prov : Provenance) (expectedInputs : List (String × String)) :
    (VerifyWorkflowInputs canonical prov expectedInputs = .ok () ↔
      ∃ inputs, prov.GetWorkflowInputs = .ok inputs ∧
        ∀ k v, (k, v) ∈ expectedInputs → ∃ a, inputs.lookup k = some a ∧ canonical a = v) ∧
    (∀ inputs, prov.GetWorkflowInputs = .ok inputs →
      VerifyWorkflowInputs canonical prov expectedInputs ≠ .ok () →
      VerifyWorkflowInputs canonical prov expectedInputs = .error .ErrorMismatchWorkflowInputs) ∧
    (∀ subset : List (String × String), subset ⊆ expectedInputs →
      VerifyWorkflowInputs canonical prov expectedInputs = .ok () →
      VerifyWorkflowInputs canonical prov subset = .ok ()) ∧
    (∀ (other : Provenance) (inputs inputs' : List (String × GoValue)),
      prov.GetWorkflowInputs = .ok inputs → other.GetWorkflowInputs = .ok inputs' →
      (∀ k v, (k, v) ∈ expectedInputs → inputs'.lookup k = inputs.lookup k) →
      VerifyWorkflowInputs canonical other expectedInputs
        = VerifyWorkflowInputs canonical prov expectedInputs) := by
  have hall : ∀ (inputs : List (String × GoValue)) (l : List (String × String)),
      l.all (inputMatches canonical inputs) = true ↔
        ∀ k v, (k, v) ∈ l → ∃ a, inputs.lookup k = some a ∧ canonical a = v := by
    intro inputs l
    rw [List.all_eq_true]
    constructor
    · intro h k v hkv
      exact (inputMatches_iff canonical inputs k v).1 (h (k, v) hkv)
    · intro h kv hkv
      exact (inputMatches_iff canonical inputs kv.1 kv.2).2 (h kv.1 kv.2 hkv)
  have hiff : VerifyWorkflowInputs canonical prov expectedInputs = .ok () ↔
      ∃ inputs, prov.GetWorkflowInputs = .ok inputs ∧
        ∀ k v, (k, v) ∈ expectedInputs → ∃ a, inputs.lookup k = some a ∧ canonical a = v := by
    cases hg : prov.GetWorkflowInputs with
    | error e =>
      simp only [VerifyWorkflowInputs, hg]
      constructor
      · intro h; cases h
      · rintro ⟨_, h, _⟩; cases h
    | ok inputs =>
      rw [VerifyWorkflowInputs_of_inputs canonical prov inputs expectedInputs hg]
      by_cases ha : expectedInputs.all (inputMatches canonical inputs) = true
      · rw [if_pos ha]
        exact ⟨fun _ => ⟨inputs, rfl, (hall inputs expectedInputs).1 ha⟩, fun _ => rfl⟩
      · rw [if_neg ha]
        constructor
        · intro h; cases h
        · rintro ⟨inputs', h, hk⟩
          cases h
          exact absurd ((hall inputs expectedInputs).2 hk) ha
  refine ⟨hiff, ?_, ?_, ?_⟩
  · intro inputs hg hne
    rw [VerifyWorkflowInputs_of_inputs canonical prov inputs expectedInputs hg] at hne ⊢
    by_cases ha : expectedInputs.all (inputMatches canonical inputs) = true
    · rw [if_pos ha] at hne
      exact absurd rfl hne
    · rw [if_neg ha]
  · intro subset hsub hok
    obtain ⟨inputs, hg, hk⟩ := hiff.1 hok
    rw [VerifyWorkflowInputs_of_inputs canonical prov inputs subset hg]
    rw [if_pos ((hall inputs subset).2 (fun k v hkv => hk k v (hsub hkv)))]
  · intro other inputs inputs' hg hg' hagree
    rw [VerifyWorkflowInputs_of_inputs canonical prov inputs expectedInputs hg,
      VerifyWorkflowInputs_of_inputs canonical other inputs' expectedInputs hg']
    have hsame : expectedInputs.all (inputMatches canonical inputs')
        = expectedInputs.all (inputMatches canonical inputs) := by
      rw [Bool.eq_iff_iff, hall, hall]
      constructor
      · intro h k v hkv
        rw [← hagree k v hkv]
        exact h k v hkv
      · intro h k v hkv
        rw [hagree k v hkv]
        exact h k v hkv
    rw [hsame]

/-- Witness of C21: the case `match subset` of `Test_VerifyWorkflowInputs`
from the case `match all`, on attested inputs with a string, a boolean and a
further string. -/
theorem VerifyWorkflowInputs_required_subset_witness :
    VerifyWorkflowInputs (canonicalString (fun _ => ""))
        ({ workflowInputs := [("release_version", .str "v1.2.3"), ("some_bool", .bool true),
            ("some_integer", .str "123")] } : testProvenance).toProvenance
        [("release_version", "v1.2.3"), ("some_integer", "123")] = .ok () :=
  (VerifyWorkflowInputs_required_subset (canonicalString (fun _ => ""))
    ({ workflowInputs := [("release_version", .str "v1.2.3"), ("some_bool", .bool true),
        ("some_integer", .str "123")] } : testProvenance).toProvenance
    [("release_version", "v1.2.3"), ("some_bool", "true"), ("some_integer", "123")]).2.2.1
    [("release_version", "v1.2.3"), ("some_integer", "123")]
    (by decide) (by decide)

/-- C22: when the internal parameters are not a string-keyed map,
`GetSystemParameters` and `GetWorkflowInputs` fail with `InvalidDssePayload`;
when they are such a map, `GetSystemParameters` returns it unchanged. -/
theorem GetSystemParameters_internal_map (p : BYOBProvenanceV1) :
    (p.prov.Predicate.BuildDefinition.InternalParameters.asMapAny = none →
      p.GetSystemParameters = .error .ErrorInvalidDssePayload ∧
      ∀ common, p.GetWorkflowInputs common = .error .ErrorInvalidDssePayload) ∧
    (∀ m, p.prov.Predicate.BuildDefinition.InternalParameters = .mapAny m →
      p.GetSystemParameters = .ok m) := by
  constructor
  · intro h
    unfold BYOBProvenanceV1.GetSystemParameters BYOBProvenanceV1.GetWorkflowInputs
    rw [h]
    exact ⟨rfl, fun _ => rfl⟩
  · intro m h
    unfold BYOBProvenanceV1.GetSystemParameters
    rw [h]
    rfl

/-- Witness of C22: internal parameters that are `null`. -/
theorem GetSystemParameters_internal_map_witness :
    (mkBYOB [] .null []).GetSystemParameters = .error .ErrorInvalidDssePayload ∧
    ∀ common, (mkBYOB [] .null []).GetWorkflowInputs common = .error .ErrorInvalidDssePayload :=
  (GetSystemParameters_internal_map (mkBYOB [] .null [])).1 rfl

/-- C23: `BuilderID`, `GetBuildInvocationID`, `GetBuildStartTime`,
`GetBuildFinishTime` and `GetNumberResolvedDependencies` never fail;
`BuilderID` returns the builder id of the predicate as it is and
`GetNumberResolvedDependencies` the length of the resolved-dependency list. -/
theorem metadata_accessors_total (p : BYOBProvenanceV1) :
    p.BuilderID = .ok p.prov.Predicate.RunDetails.Builder.ID ∧
    p.GetBuildInvocationID = .ok p.prov.Predicate.RunDetails.BuildMetadata.InvocationID ∧
    p.GetBuildStartTime = .ok p.prov.Predicate.RunDetails.BuildMetadata.StartedOn ∧
    p.GetBuildFinishTime = .ok p.prov.Predicate.RunDetails.BuildMetadata.FinishedOn ∧
    p.GetNumberResolvedDependencies
      = .ok (Int.ofNat p.prov.Predicate.BuildDefinition.ResolvedDependencies.length) :=
  ⟨rfl, rfl, rfl, rfl, rfl⟩

/-- C24: with `s` the text of the source URI between its first and its second
`@` (or its end), `GetBranch` returns `s` when the URI has an `@` and `s`
starts with `refs/heads`, and the empty string otherwise; `GetTag` does the
same with `refs/tags`; the value keeps its prefix and neither call fails. -/
theorem GetBranch_GetTag_refPart (p : BYOBProvenanceV1) (u : String)
    (hu : p.SourceURI = .ok u) :
    p.GetBranch = .ok (match refPart u with
      | some s => if stringsHasPrefix s "refs/heads" then s else ""
      | none => "") ∧
    p.GetTag = .ok (match refPart u with
      | some s => if stringsHasPrefix s "refs/tags" then s else ""
      | none => "") ∧
    (∀ b, p.GetBranch = .ok b → b ≠ "" → stringsHasPrefix b "refs/heads" = true) ∧
    (∀ t, p.GetTag = .ok t → t ≠ "" → stringsHasPrefix t "refs/tags" = true) := by
  have hb := GetBranch_of_SourceURI p u hu
  have ht := GetTag_of_SourceURI p u hu
  refine ⟨hb, ht, ?_, ?_⟩
  · intro b hb' hne
    rw [hb] at hb'
    cases hr : refPart u with
    | none =>
      rw [hr] at hb'
      cases hb'
      exact absurd rfl hne
    | some s =>
      rw [hr] at hb'
      simp only at hb'
      by_cases hp : stringsHasPrefix s "refs/heads" = true
      · rw [if_pos hp] at hb'
        cases hb'
        exact hp
      · rw [if_neg hp] at hb'
        cases hb'
        exact absurd rfl hne
  · intro t ht' hne
    rw [ht] at ht'
    cases hr : refPart u with
    | none =>
      rw [hr] at ht'
      cases ht'
      exact absurd rfl hne
    | some s =>
      rw [hr] at ht'
      simp only at ht'
      by_cases hp : stringsHasPrefix s "refs/tags" = true
      · rw [if_pos hp] at ht'
        cases ht'
        exact hp
      · rw [if_neg hp] at ht'
        cases ht'
        exact absurd rfl hne

/-- Witness of C24: a source URI with two `@`. -/
theorem GetBranch_GetTag_refPart_witness :
    (mkBYOB [] .null ["git+https://github.com/o/r@refs/heads/a@b"]).GetBranch
      = .ok "refs/heads/a" :=
  (GetBranch_GetTag_refPart (mkBYOB [] .null ["git+https://github.com/o/r@refs/heads/a@b"])
    "git+https://github.com/o/r@refs/heads/a@b" (by decide)).1

/-- C25: with a workflow map in the external parameters, `TriggerURI` fails
with `MalformedURI` when the `ref` entry or the `repository` entry is missing,
not a string or empty, whatever the `path` entry is; when both are valid the
`path` entry decides: valid, `TriggerURI` returns `repository@ref`; not valid,
it fails with `InvalidFormat`. -/
theorem TriggerURI_ref_repository_first (p : BYOBProvenanceV1)
    (ext w : List (String × GoValue))
    (hext : p.prov.Predicate.BuildDefinition.ExternalParameters = .mapAny ext)
    (hw : ext.lookup "workflow" = some (.mapAny w)) :
    (((¬ ∃ s, w.lookup "ref" = some (.str s) ∧ s ≠ "") ∨
      (¬ ∃ s, w.lookup "repository" = some (.str s) ∧ s ≠ "")) →
      p.TriggerURI = .error .ErrorMalformedURI) ∧
    (∀ ref repository, w.lookup "ref" = some (.str ref) → ref ≠ "" →
      w.lookup "repository" = some (.str repository) → repository ≠ "" →
      ((∃ path, w.lookup "path" = some (.str path) ∧ path ≠ "") →
        p.TriggerURI = .ok (repository ++ "@" ++ ref)) ∧
      ((¬ ∃ path, w.lookup "path" = some (.str path) ∧ path ≠ "") →
        p.TriggerURI = .error .ErrorInvalidFormat)) := by
  have hI := triggerInfo_of_workflow p ext w hext hw
  constructor
  · intro hbad
    rcases triggerInfoOfWorkflow_cases w with
      ⟨repository, ref, path, _, href, hrepo, _⟩ | ⟨herr, _⟩ | ⟨_, ⟨ref, href⟩, ⟨repository, hrepo⟩, _⟩
    · rw [getValidateKey_ok] at href hrepo
      rcases hbad with h | h
      · exact absurd ⟨ref, href⟩ h
      · exact absurd ⟨repository, hrepo⟩ h
    · exact TriggerURI_of_triggerInfo_error p _ (hI.trans herr)
    · rw [getValidateKey_ok] at href hrepo
      rcases hbad with h | h
      · exact absurd ⟨ref, href⟩ h
      · exact absurd ⟨repository, hrepo⟩ h
  · intro ref repository href hrefne hrepo hrepone
    have h1 : getValidateKey w "ref" = .ok ref := (getValidateKey_ok _ _ _).2 ⟨href, hrefne⟩
    have h2 : getValidateKey w "repository" = .ok repository :=
      (getValidateKey_ok _ _ _).2 ⟨hrepo, hrepone⟩
    constructor
    · rintro ⟨path, hpath, hpathne⟩
      have h3 : getValidateKey w "path" = .ok path := (getValidateKey_ok _ _ _).2 ⟨hpath, hpathne⟩
      have hok : p.triggerInfo = .ok (repository, ref, path) := by
        rw [hI]
        simp only [triggerInfoOfWorkflow, h1, h2, h3]
      rw [TriggerURI_of_triggerInfo_ok p repository ref path hok]
      simp [hrefne, hrepone]
    · intro hno
      cases h3 : getValidateKey w "path" with
      | ok path =>
        exact absurd ⟨path, (getValidateKey_ok _ _ _).1 h3⟩ hno
      | error e =>
        have he := getValidateKey_error w "path" e h3
        subst he
        apply TriggerURI_of_triggerInfo_error
        rw [hI]
        simp only [triggerInfoOfWorkflow, h1, h2, h3]

/-- Witness of C25: a workflow map whose `ref` is the empty string, with a
valid `path`. -/
theorem TriggerURI_ref_repository_first_witness :
    (mkBYOB [] (.mapAny [("workflow", .mapAny [("ref", .str ""),
      ("repository", .str "https://github.com/o/r"), ("path", .str "p")])]) []).TriggerURI
      = .error .ErrorMalformedURI :=
  (TriggerURI_ref_repository_first _
    [("workflow", .mapAny [("ref", .str ""), ("repository", .str "https://github.com/o/r"),
      ("path", .str "p")])]
    [("ref", .str ""), ("repository", .str "https://github.com/o/r"), ("path", .str "p")]
    rfl rfl).1
    (Or.inl (by
      rintro ⟨s, hs, hne⟩
      have h : List.lookup "ref" [("ref", GoValue.str ""),
          ("repository", GoValue.str "https://github.com/o/r"), ("path", GoValue.str "p")]
          = some (GoValue.str "") := rfl
      rw [h] at hs
      cases hs
      exact hne rfl))

/-- C26: `SourceURI` fails with `InvalidDssePayload` exactly when the
resolved-dependency list is empty, fails with `MalformedURI` exactly when the
list is not empty and its first URI is the empty string, and succeeds in every
other case; a successful result is not the empty string. -/
theorem SourceURI_outcomes (p : BYOBProvenanceV1) :
    (p.SourceURI = .error .ErrorInvalidDssePayload ↔
      p.prov.Predicate.BuildDefinition.ResolvedDependencies = []) ∧
    (p.SourceURI = .error .ErrorMalformedURI ↔
      ∃ d rest, p.prov.Predicate.BuildDefinition.ResolvedDependencies = d :: rest ∧
        d.URI = "") ∧
    ((∃ d rest, p.prov.Predicate.BuildDefinition.ResolvedDependencies = d :: rest ∧
        d.URI ≠ "") ↔ ∃ u, p.SourceURI = .ok u) ∧
    (∀ u, p.SourceURI = .ok u → u ≠ "") := by
  rcases SourceURI_cases p with ⟨hnil, hr⟩ | ⟨d, rest, hd, hu, hr⟩ | ⟨d, rest, hd, hu, hr⟩
  · rw [hr, hnil]
    simp
  · rw [hr, hd]
    simp [hu]
  · rw [hr, hd]
    refine ⟨by simp, by simp [hu], by simp [hu], ?_⟩
    intro u h
    cases h
    exact hu

/-- Witness of C26: a first resolved dependency with an empty URI. -/
theorem SourceURI_outcomes_witness :
    (mkBYOB [] .null ["", "git+https://github.com/o/r@refs/heads/main"]).SourceURI
      = .error .ErrorMalformedURI :=
  (SourceURI_outcomes (mkBYOB [] .null ["", "git+https://github.com/o/r@refs/heads/main"])).2.1.2
    ⟨{ Name := "", URI := "", Digest := [] },
      [{ Name := "", URI := "git+https://github.com/o/r@refs/heads/main", Digest := [] }],
      rfl, rfl⟩

/-- C27, as stated, fails: on the source URI `...@refs/heads/a@b` the text
after the first `@` is `refs/heads/a@b` and `GetBranch` returns
`refs/heads/a`; likewise `GetTag` on `...@refs/tags/v1@x`. -/
theorem GetBranch_whole_suffix_counterexample :
    afterFirstAt "git+https://github.com/o/r@refs/heads/a@b" = some "refs/heads/a@b" ∧
    (mkBYOB [] .null ["git+https://github.com/o/r@refs/heads/a@b"]).GetBranch
      = .ok "refs/heads/a" ∧
    afterFirstAt "git+https://github.com/o/r@refs/tags/v1@x" = some "refs/tags/v1@x" ∧
    (mkBYOB [] .null ["git+https://github.com/o/r@refs/tags/v1@x"]).GetTag
      = .ok "refs/tags/v1" := by
  decide

/-- C27, amended: when the text `r` after the first `@` of the source URI
starts with `refs/heads` (respectively `refs/tags`), `GetBranch` (respectively
`GetTag`) returns `r` up to its first `@`, which is the whole of `r` when `r`
has no `@`. -/
theorem GetBranch_up_to_second_at (p : BYOBProvenanceV1) (u r : String)
    (hu : p.SourceURI = .ok u) (hr : afterFirstAt u = some r) :
    (stringsHasPrefix r "refs/heads" = true →
      p.GetBranch = .ok (String.mk (r.data.takeWhile (fun c => c != '@'))) ∧
      ('@' ∉ r.data → p.GetBranch = .ok r)) ∧
    (stringsHasPrefix r "refs/tags" = true →
      p.GetTag = .ok (String.mk (r.data.takeWhile (fun c => c != '@'))) ∧
      ('@' ∉ r.data → p.GetTag = .ok r)) := by
  have hrp : refPart u = some (String.mk (r.data.takeWhile (fun c => c != '@'))) := by
    unfold afterFirstAt at hr
    unfold refPart
    cases h2 : (splitFirst '@' u.data).2 with
    | none => rw [h2] at hr; cases hr
    | some rest =>
      rw [h2] at hr
      simp only [Option.map_some', Option.some.injEq] at hr
      rw [← hr]
  constructor
  · intro hp
    have hp' : stringsHasPrefix (String.mk (r.data.takeWhile (fun c => c != '@'))) "refs/heads"
        = true := by
      unfold stringsHasPrefix at hp ⊢
      exact isPrefixOf_takeWhile _ _ _ hp (by decide)
    have hb := GetBranch_of_SourceURI p u hu
    rw [hrp] at hb
    simp only [hp', if_true] at hb
    refine ⟨hb, fun hfree => ?_⟩
    rw [hb, takeWhile_of_not_mem '@' r.data hfree]
  · intro hp
    have hp' : stringsHasPrefix (String.mk (r.data.takeWhile (fun c => c != '@'))) "refs/tags"
        = true := by
      unfold stringsHasPrefix at hp ⊢
      exact isPrefixOf_takeWhile _ _ _ hp (by decide)
    have ht := GetTag_of_SourceURI p u hu
    rw [hrp] at ht
    simp only [hp', if_true] at ht
    refine ⟨ht, fun hfree => ?_⟩
    rw [ht, takeWhile_of_not_mem '@' r.data hfree]

/-- Witness of C27, amended: a source URI with a single `@`. -/
theorem GetBranch_up_to_second_at_witness :
    (mkBYOB [] .null ["git+https://github.com/o/r@refs/heads/main"]).GetBranch
      = .ok "refs/heads/main" :=
  ((GetBranch_up_to_second_at (mkBYOB [] .null ["git+https://github.com/o/r@refs/heads/main"])
    "git+https://github.com/o/r@refs/heads/main" "refs/heads/main"
    (by decide) (by decide)).1 (by decide)).2 (by decide)

/-- C28: on no BYOB provenance do `TriggerURI` and `GetBuildTriggerPath` both
succeed: where `TriggerURI` succeeds the `workflow` value is a map of untyped
values and `GetBuildTriggerPath` fails with `InvalidDssePayload`, and where
`GetBuildTriggerPath` succeeds the `workflow` value is a map of strings and
`TriggerURI` fails with `InvalidDssePayload`. -/
theorem TriggerURI_GetBuildTriggerPath_exclusive (p : BYOBProvenanceV1) :
    (∀ u, p.TriggerURI = .ok u → p.GetBuildTriggerPath = .error .ErrorInvalidDssePayload) ∧
    (∀ path, p.GetBuildTriggerPath = .ok path →
      p.TriggerURI = .error .ErrorInvalidDssePayload) ∧
    ¬ ∃ u path, p.TriggerURI = .ok u ∧ p.GetBuildTriggerPath = .ok path := by
  have h1 : ∀ u, p.TriggerURI = .ok u →
      p.GetBuildTriggerPath = .error .ErrorInvalidDssePayload := by
    intro u hu
    cases hI : p.triggerInfo with
    | error e =>
      rw [TriggerURI_of_triggerInfo_error p e hI] at hu
      cases hu
    | ok r =>
      obtain ⟨repository, ref, path⟩ := r
      obtain ⟨ext, w, hext, hw, _⟩ := triggerInfo_ok_inv p repository ref path hI
      simp only [BYOBProvenanceV1.GetBuildTriggerPath, hext, GoValue.asMapAny, hw,
        GoValue.asMapStr]
  refine ⟨h1, ?_, ?_⟩
  · intro path hpath
    cases hT : p.TriggerURI with
    | error e =>
      cases hI : p.triggerInfo with
      | error e' =>
        rw [TriggerURI_of_triggerInfo_error p e' hI] at hT
        cases hT
        by_cases hwf : ∃ ext w,
            p.prov.Predicate.BuildDefinition.ExternalParameters = .mapAny ext ∧
            ext.lookup "workflow" = some (.mapAny w)
        · obtain ⟨ext, w, hext, hw⟩ := hwf
          simp [BYOBProvenanceV1.GetBuildTriggerPath, hext, GoValue.asMapAny, hw,
            GoValue.asMapStr] at hpath
        · rw [triggerInfo_no_workflow p hwf] at hI
          cases hI
          rfl
      | ok r =>
        obtain ⟨repository, ref, path'⟩ := r
        obtain ⟨ext, w, hext, hw, _⟩ := triggerInfo_ok_inv p repository ref path' hI
        simp [BYOBProvenanceV1.GetBuildTriggerPath, hext, GoValue.asMapAny, hw,
          GoValue.asMapStr] at hpath
    | ok u =>
      rw [h1 u hT] at hpath
      cases hpath
  · rintro ⟨u, path, hu, hpath⟩
    rw [h1 u hu] at hpath
    cases hpath

/-- Witness of C28: a `workflow` value of dynamic type `map[string]string`,
on which `GetBuildTriggerPath` succeeds. -/
theorem TriggerURI_GetBuildTriggerPath_exclusive_witness :
    (mkBYOB [] (.mapAny [("workflow", .mapStr [("ref", "refs/heads/main"),
      ("repository", "https://github.com/o/r"), ("path", "p")])]) []).GetBuildTriggerPath
      = .ok "p" ∧
    (mkBYOB [] (.mapAny [("workflow", .mapStr [("ref", "refs/heads/main"),
      ("repository", "https://github.com/o/r"), ("path", "p")])]) []).TriggerURI
      = .error .ErrorInvalidDssePayload :=
  ⟨by decide, (TriggerURI_GetBuildTriggerPath_exclusive _).2.1 "p" (by decide)⟩

/-- C29: when `triggerInfo` succeeds, the repository, ref and path it
returns are non-empty entries of the workflow map, returned unchanged, and
`TriggerURI` returns `repository@ref`; every failure of `TriggerURI` is a
failure of `triggerInfo`, so its own `repository or ref is empty` branch is
never taken. -/
theorem triggerInfo_results_nonempty (p : BYOBProvenanceV1) :
    (∀ repository ref path, p.triggerInfo = .ok (repository, ref, path) →
      repository ≠ "" ∧ ref ≠ "" ∧ path ≠ "" ∧
      (∃ ext w, p.prov.Predicate.BuildDefinition.ExternalParameters = .mapAny ext ∧
        ext.lookup "workflow" = some (.mapAny w) ∧
        w.lookup "repository" = some (.str repository) ∧
        w.lookup "ref" = some (.str ref) ∧ w.lookup "path" = some (.str path)) ∧
      p.TriggerURI = .ok (repository ++ "@" ++ ref)) ∧
    (∀ e, p.TriggerURI = .error e → p.triggerInfo = .error e) := by
  have h1 : ∀ repository ref path, p.triggerInfo = .ok (repository, ref, path) →
      repository ≠ "" ∧ ref ≠ "" ∧ path ≠ "" ∧
      (∃ ext w, p.prov.Predicate.BuildDefinition.ExternalParameters = .mapAny ext ∧
        ext.lookup "workflow" = some (.mapAny w) ∧
        w.lookup "repository" = some (.str repository) ∧
        w.lookup "ref" = some (.str ref) ∧ w.lookup "path" = some (.str path)) ∧
      p.TriggerURI = .ok (repository ++ "@" ++ ref) := by
    intro repository ref path h
    obtain ⟨ext, w, hext, hw, href, hrepo, hpath⟩ := triggerInfo_ok_inv p repository ref path h
    rw [getValidateKey_ok] at href hrepo hpath
    refine ⟨hrepo.2, href.2, hpath.2, ⟨ext, w, hext, hw, hrepo.1, href.1, hpath.1⟩, ?_⟩
    rw [TriggerURI_of_triggerInfo_ok p repository ref path h]
    simp [hrepo.2, href.2]
  refine ⟨h1, ?_⟩
  intro e he
  cases hI : p.triggerInfo with
  | error e' =>
    rw [TriggerURI_of_triggerInfo_error p e' hI] at he
    cases he
    rfl
  | ok r =>
    obtain ⟨repository, ref, path⟩ := r
    rw [(h1 repository ref path hI).2.2.2.2] at he
    cases he

/-- Witness of C29: a workflow map with the three entries. -/
theorem triggerInfo_results_nonempty_witness :
    (mkBYOB [] (.mapAny [("workflow", .mapAny [("ref", .str "refs/heads/main"),
      ("repository", .str "https://github.com/o/r"),
      ("path", .str ".github/workflows/x.yml")])]) []).TriggerURI
      = .ok ("https://github.com/o/r" ++ "@" ++ "refs/heads/main") :=
  ((triggerInfo_results_nonempty _).1 "https://github.com/o/r" "refs/heads/main"
    ".github/workflows/x.yml" (by decide)).2.2.2.2

/-- C30: `GetBranch` and `GetTag` fail exactly when `SourceURI` fails, and
then with the error of `SourceURI`: `InvalidDssePayload` for an empty
resolved-dependency list, `MalformedURI` for an empty first URI; when
`SourceURI` succeeds, both succeed. -/
theorem GetBranch_GetTag_errors (p : BYOBProvenanceV1) :
    (∀ e, p.SourceURI = .error e ↔ p.GetBranch = .error e) ∧
    (∀ e, p.SourceURI = .error e ↔ p.GetTag = .error e) ∧
    (∀ u, p.SourceURI = .ok u → (∃ b, p.GetBranch = .ok b) ∧ ∃ t, p.GetTag = .ok t) ∧
    (p.prov.Predicate.BuildDefinition.ResolvedDependencies = [] →
      p.GetBranch = .error .ErrorInvalidDssePayload ∧
      p.GetTag = .error .ErrorInvalidDssePayload) ∧
    (∀ d rest, p.prov.Predicate.BuildDefinition.ResolvedDependencies = d :: rest →
      d.URI = "" →
      p.GetBranch = .error .ErrorMalformedURI ∧ p.GetTag = .error .ErrorMalformedURI) := by
  have hok : ∀ u, p.SourceURI = .ok u → (∃ b, p.GetBranch = .ok b) ∧ ∃ t, p.GetTag = .ok t := by
    intro u hu
    unfold BYOBProvenanceV1.GetBranch BYOBProvenanceV1.GetTag
    rw [hu]
    simp only
    constructor
    · split
      · split
        · exact ⟨_, rfl⟩
        · exact ⟨_, rfl⟩
      · exact ⟨_, rfl⟩
    · split
      · split
        · exact ⟨_, rfl⟩
        · exact ⟨_, rfl⟩
      · exact ⟨_, rfl⟩
  have herr : ∀ e, p.SourceURI = .error e → p.GetBranch = .error e ∧ p.GetTag = .error e := by
    intro e he
    unfold BYOBProvenanceV1.GetBranch BYOBProvenanceV1.GetTag
    rw [he]
    exact ⟨rfl, rfl⟩
  refine ⟨?_, ?_, hok, ?_, ?_⟩
  · intro e
    refine ⟨fun h => (herr e h).1, fun h => ?_⟩
    cases hs : p.SourceURI with
    | error e' =>
      rw [(herr e' hs).1] at h
      cases h
      rfl
    | ok u =>
      obtain ⟨b, hb⟩ := (hok u hs).1
      rw [hb] at h
      cases h
  · intro e
    refine ⟨fun h => (herr e h).2, fun h => ?_⟩
    cases hs : p.SourceURI with
    | error e' =>
      rw [(herr e' hs).2] at h
      cases h
      rfl
    | ok u =>
      obtain ⟨t, ht⟩ := (hok u hs).2
      rw [ht] at h
      cases h
  · intro hnil
    apply herr
    unfold BYOBProvenanceV1.SourceURI
    rw [hnil]
  · intro d rest hd hu
    apply herr
    unfold BYOBProvenanceV1.SourceURI
    rw [hd]
    simp [hu]

/-- Witness of C30: an empty resolved-dependency list. -/
theorem GetBranch_GetTag_errors_witness :
    (mkBYOB [] .null []).GetBranch = .error .ErrorInvalidDssePayload ∧
    (mkBYOB [] .null []).GetTag = .error .ErrorInvalidDssePayload :=
  (GetBranch_GetTag_errors (mkBYOB [] .null [])).2.2.2.1 rfl

end SlsaVerifier
